import Mathlib

/-!
Verification development for the maliput_geopackage core: a shallow
embedding, in Lean 4, of the GeoPackage/WKB geometry decoder
(`ParseGeopackageGeometry` in `geopackage_parser.cc`), the SQLite text
column accessors (`SqliteStatement::GetColumnText`, both variants present
in the repository), the table-parser referential check for segments, and
the topology manager (`GeoPackageManager`): branch-point resolution,
segment lane ordering (`SortLanes`) and the deduplicated connection list.

Machine integers are modelled as `Nat` (byte values 0..255, little-endian
multi-byte reads); an 8-byte IEEE-754 double is represented by its 64-bit
pattern read little-endian (the C++ code only ever `memcpy`s doubles, so
the bit pattern is the faithful observable). Fallible C++ code (throwing
`MALIPUT_VALIDATE` / `std::runtime_error`) is embedded with `Except`.
-/

namespace MaliputGeopackage

/-! ## Geometry decoder (geopackage_parser.cc, ParseGeopackageGeometry)

The decoder receives `(data, bytes)`; we model the buffer as a `List Nat`
of byte values, with `bytes = l.length` (the non-null case). Each
`MALIPUT_VALIDATE` site gets its own structured error constructor,
mirroring the distinct message of that site. Raw memory reads (`memcpy`,
`*ptr`) are embedded as guarded reads that return the distinguished error
`GeoErr.oob` when they would touch bytes outside the buffer; the C++ code
performs these reads unguarded, so proving the embedding never returns
`GeoErr.oob` proves the C++ reads stay inside `[data, data + bytes)`. -/

/-- Decoder errors. Constructors other than `oob` correspond one-to-one to
the `MALIPUT_VALIDATE` failure messages of `ParseGeopackageGeometry`;
`oob` marks a (hypothetical) out-of-bounds memory read. -/
inductive GeoErr where
  /-- an unguarded read would have left the buffer -/
  | oob : GeoErr
  /-- Message "GeoPackage geometry data size N is too small." -/
  | tooSmall (bytes : Nat) : GeoErr
  /-- Message "Not enough data in GeoPackage geometry after header." -/
  | afterHeader : GeoErr
  /-- Message "Unsupported byte order B in GeoPackage geometry." -/
  | badByteOrder (b : Nat) : GeoErr
  /-- Message "Not enough data in GeoPackage geometry for WKB type." -/
  | shortType : GeoErr
  /-- Message "Unsupported WKB geometry type B (raw type: R)." -/
  | badType (base raw : Nat) : GeoErr
  /-- Message "Not enough data in GeoPackage geometry for point count." -/
  | shortCount : GeoErr
  /-- Message "Unreasonable number of points N in GeoPackage geometry." -/
  | tooManyPoints (n : Nat) : GeoErr
  /-- Message "Not enough data in GeoPackage geometry for N points." -/
  | truncated (n : Nat) : GeoErr
deriving DecidableEq, Repr

/-- A decoded point: the three 64-bit patterns of the doubles (X, Y, Z). -/
abbrev Pt := Nat × Nat × Nat

/-- Little-endian value of a byte list (first byte least significant). -/
def bytesToNatLE : List Nat → Nat
  | [] => 0
  | b :: rest => b + 256 * bytesToNatLE rest

/-- Guarded little-endian read of `n` bytes at offset `off`; `GeoErr.oob`
when the read would leave the buffer (models a raw `memcpy`). -/
def readLE (l : List Nat) (off n : Nat) : Except GeoErr Nat :=
  if off + n ≤ l.length then .ok (bytesToNatLE ((l.drop off).take n)) else .error .oob

/-- The per-point loop of `ParseGeopackageGeometry`: reads 8-byte X and Y
at `off`, emits `(X, Y, 0.0)` (the source always sets Z = 0.0 and always
advances by 16 bytes per point, regardless of the WKB Z flag). -/
def readPoints (l : List Nat) (off : Nat) : Nat → Except GeoErr (List Pt)
  | 0 => .ok []
  | n + 1 =>
    match readLE l off 8 with
    | .error e => .error e
    | .ok x =>
      match readLE l (off + 8) 8 with
      | .error e => .error e
      | .ok y =>
        match readPoints l (off + 16) n with
        | .error e => .error e
        | .ok rest => .ok ((x, y, 0) :: rest)

/-- Shallow embedding of `ParseGeopackageGeometry(data, bytes)` from
`geopackage_parser.cc` (the decoder present under src): size precheck
`bytes >= 21`, 8-byte header skip with no magic/version/flags inspection,
byte-order check, WKB type with low-28-bit base type, point count with
sanity bound, payload bound of 16 bytes per point, then the point loop.
Pointer comparisons `ptr <= end - k` become `off <= bytes - k` over `Nat`
(truncated subtraction agrees with the pointer comparison here because
the compared offsets are positive). -/
def parseGeopackageGeometry (l : List Nat) : Except GeoErr (List Pt) :=
  if l.length < 21 then .error (.tooSmall l.length)
  else if ¬ (8 ≤ l.length - 9) then .error .afterHeader
  else
    match readLE l 8 1 with
    | .error e => .error e
    | .ok byte_order =>
      if byte_order ≠ 1 then .error (.badByteOrder byte_order)
      else if ¬ (9 ≤ l.length - 4) then .error .shortType
      else
        match readLE l 9 4 with
        | .error e => .error e
        | .ok wkb_type =>
          if wkb_type % 268435456 ≠ 2 then .error (.badType (wkb_type % 268435456) wkb_type)
          else if ¬ (13 ≤ l.length - 4) then .error .shortCount
          else
            match readLE l 13 4 with
            | .error e => .error e
            | .ok num_points =>
              if 1000000 < num_points then .error (.tooManyPoints num_points)
              else if ¬ (17 ≤ l.length - 16 * num_points) then .error (.truncated num_points)
              else readPoints l 17 num_points

/-- Whether a decoder outcome is the out-of-bounds marker. -/
def isOob {α : Type} : Except GeoErr α → Bool
  | .error .oob => true
  | _ => false

/-- Concrete blob: magic bytes are 'X','X' (88, 88) instead of 'G','P';
version 0, flags 0, SRS id 0, byte order 1 (little-endian), WKB type 2,
point count 0, plus four trailing padding bytes to reach 21 bytes. -/
def badMagicBlob : List Nat :=
  [88, 88, 0, 0, 0, 0, 0, 0, 1, 2, 0, 0, 0, 0, 0, 0, 0, 0, 0, 0, 0]

/-- Concrete blob for scenario S5: magic 'G','P' (71, 80), version 0,
flags 0, SRS id 0, byte order 1, WKB type `2 | 0x80000000` (bytes
2, 0, 0, 128), point count 2, then two XYZ points (0,0,0) and (1,2,3)
as little-endian doubles (1.0 = 0x3FF0000000000000, 2.0 =
0x4000000000000000, 3.0 = 0x4008000000000000): 65 bytes total. -/
def xyzBlob : List Nat :=
  [71, 80, 0, 0, 0, 0, 0, 0, 1, 2, 0, 0, 128, 2, 0, 0, 0] ++
  [0, 0, 0, 0, 0, 0, 0, 0] ++ [0, 0, 0, 0, 0, 0, 0, 0] ++ [0, 0, 0, 0, 0, 0, 0, 0] ++
  [0, 0, 0, 0, 0, 0, 240, 63] ++ [0, 0, 0, 0, 0, 0, 0, 64] ++ [0, 0, 0, 0, 0, 0, 8, 64]

/-- Concrete blob: a well-formed zero-point linestring at the minimum
GeoPackage layout size of 17 bytes: magic 'G','P', version 0, flags 0,
SRS id 0, byte order 1, WKB type 2, point count 0. -/
def zeroPointBlob17 : List Nat :=
  [71, 80, 0, 0, 0, 0, 0, 0, 1, 2, 0, 0, 0, 0, 0, 0, 0]

/-- The same zero-point linestring padded with four trailing bytes to the
21-byte threshold the source actually enforces. -/
def zeroPointBlob21 : List Nat :=
  [71, 80, 0, 0, 0, 0, 0, 0, 1, 2, 0, 0, 0, 0, 0, 0, 0, 0, 0, 0, 0]

/-- A `readLE` failure is always the out-of-bounds marker. -/
lemma readLE_error_eq_oob {l : List Nat} {off n : Nat} {e : GeoErr}
    (h : readLE l off n = .error e) : e = .oob := by
  unfold readLE at h
  split at h
  · exact absurd h (by simp)
  · cases h; rfl

/-- A `readLE` read whose range fits in the buffer succeeds. -/
lemma readLE_ok_of_le {l : List Nat} {off n : Nat} (h : off + n ≤ l.length) :
    readLE l off n = .ok (bytesToNatLE ((l.drop off).take n)) := by
  unfold readLE
  exact if_pos h

/-- A `readPoints` failure is always the out-of-bounds marker. -/
lemma readPoints_error_eq_oob {l : List Nat} {e : GeoErr} :
    ∀ {n off : Nat}, readPoints l off n = .error e → e = .oob := by
  intro n
  induction n with
  | zero => intro off h; exact absurd h (by simp [readPoints])
  | succ n ih =>
    intro off h
    unfold readPoints at h
    cases hx : readLE l off 8 with
    | error e₁ => rw [hx] at h; cases h; exact readLE_error_eq_oob hx
    | ok x =>
      rw [hx] at h
      cases hy : readLE l (off + 8) 8 with
      | error e₂ => rw [hy] at h; cases h; exact readLE_error_eq_oob hy
      | ok y =>
        rw [hy] at h
        cases hr : readPoints l (off + 16) n with
        | error e₃ => rw [hr] at h; cases h; exact ih hr
        | ok rest => rw [hr] at h; exact absurd h (by simp)

/-- When the point payload fits, the per-point loop succeeds. -/
lemma readPoints_ok_of_le {l : List Nat} :
    ∀ {n off : Nat}, off + 16 * n ≤ l.length → ∃ pts, readPoints l off n = .ok pts := by
  intro n
  induction n with
  | zero => intro off _; exact ⟨[], rfl⟩
  | succ n ih =>
    intro off h
    obtain ⟨pts, hpts⟩ := ih (show (off + 16) + 16 * n ≤ l.length by omega)
    refine ⟨(bytesToNatLE ((l.drop off).take 8),
      bytesToNatLE ((l.drop (off + 8)).take 8), 0) :: pts, ?_⟩
    unfold readPoints
    rw [readLE_ok_of_le (by omega), readLE_ok_of_le (by omega)]
    dsimp only
    rw [hpts]

/-- Claim C9: the geometry decoder either fails one of its validations or
reads only bytes inside the supplied buffer; no read (modelled as a
guarded read producing `GeoErr.oob` when past the end) ever leaves the
buffer, for every input byte list. -/
theorem parseGeopackageGeometry_reads_in_bounds (l : List Nat) :
    isOob (parseGeopackageGeometry l) = false := by
  unfold parseGeopackageGeometry
  by_cases h1 : l.length < 21
  · simp [h1, isOob]
  · rw [if_neg h1]
    have hlen : 21 ≤ l.length := Nat.le_of_not_lt h1
    by_cases h2 : 8 ≤ l.length - 9
    · rw [if_neg (not_not_intro h2)]
      rw [readLE_ok_of_le (by omega)]
      dsimp only
      by_cases h3 : bytesToNatLE ((l.drop 8).take 1) ≠ 1
      · simp [h3, isOob]
      · rw [if_neg h3]
        by_cases h4 : 9 ≤ l.length - 4
        · rw [if_neg (not_not_intro h4)]
          rw [readLE_ok_of_le (show 9 + 4 ≤ l.length by omega)]
          dsimp only
          by_cases h5 : bytesToNatLE ((l.drop 9).take 4) % 268435456 ≠ 2
          · simp [h5, isOob]
          · rw [if_neg h5]
            by_cases h6 : 13 ≤ l.length - 4
            · rw [if_neg (not_not_intro h6)]
              rw [readLE_ok_of_le (show 13 + 4 ≤ l.length by omega)]
              dsimp only
              by_cases h7 : 1000000 < bytesToNatLE ((l.drop 13).take 4)
              · simp [h7, isOob]
              · rw [if_neg h7]
                by_cases h8 : 17 ≤ l.length - 16 * bytesToNatLE ((l.drop 13).take 4)
                · rw [if_neg (not_not_intro h8)]
                  obtain ⟨pts, hpts⟩ := readPoints_ok_of_le
                    (show 17 + 16 * bytesToNatLE ((l.drop 13).take 4) ≤ l.length by omega)
                  rw [hpts]; rfl
                · rw [if_pos h8]; rfl
            · rw [if_pos h6]; rfl
        · rw [if_pos h4]; rfl
    · rw [if_pos h2]; rfl

/-- Claim C4 (code bug evidence): a 21-byte blob whose first two bytes are
'X','X' (88, 88) rather than 'G','P' is accepted by the decoder present in
the source — the 8-byte header is skipped without any magic check — and
decodes to the empty polyline instead of failing with a geometry-format
error as the header documentation, the bad-magic test and the spec
require. -/
theorem parseGeopackageGeometry_accepts_bad_magic :
    badMagicBlob.take 2 = [88, 88] ∧
      parseGeopackageGeometry badMagicBlob = .ok [] := by
  constructor <;> rfl

/-- Claim C5 (code bug evidence): on the S5 blob (WKB type
`2 | 0x80000000`, points (0,0,0) and (1,2,3)), the decoder present in the
source ignores the Z flag, reads 16 bytes per point, and returns the bit
patterns [(0,0,0), (0, bits(1.0), 0)] — it does not return
[(0,0,0), (bits(1.0), bits(2.0), bits(3.0))] as the spec and the
repository's own XYZ test require. -/
theorem parseGeopackageGeometry_ignores_z_flag :
    parseGeopackageGeometry xyzBlob = .ok [(0, 0, 0), (0, 4607182418800017408, 0)] ∧
      parseGeopackageGeometry xyzBlob ≠
        .ok [(0, 0, 0), (4607182418800017408, 4611686018427387904, 4613937818241073152)] := by
  constructor
  · rfl
  · intro h
    rw [show parseGeopackageGeometry xyzBlob
        = .ok [(0, 0, 0), (0, 4607182418800017408, 0)] from rfl] at h
    simp at h

/-- Claim C6 (counterexample): the well-formed 17-byte zero-point
linestring blob is rejected by the decoder's size precheck, contradicting
the claim that exactly the inputs shorter than 17 bytes are rejected and
that this blob is accepted. -/
theorem parseGeopackageGeometry_rejects_17_byte_blob :
    parseGeopackageGeometry zeroPointBlob17 = .error (.tooSmall 17) ∧
      ∀ pts : List Pt, parseGeopackageGeometry zeroPointBlob17 ≠ .ok pts := by
  refine ⟨rfl, ?_⟩
  intro pts h
  rw [show parseGeopackageGeometry zeroPointBlob17 = .error (.tooSmall 17) from rfl] at h
  simp at h

/-- Claim C6 (amended): the decoder's size precheck rejects exactly the
inputs shorter than 21 bytes (`bytes >= 21` in the source); a zero-point
linestring blob padded to 21 bytes is accepted and decodes to the empty
polyline, while the bare 17-byte zero-point blob fails the precheck. -/
theorem parseGeopackageGeometry_size_precheck (l : List Nat) :
    (parseGeopackageGeometry l = .error (.tooSmall l.length) ↔ l.length < 21) ∧
      parseGeopackageGeometry zeroPointBlob21 = .ok [] ∧
      parseGeopackageGeometry zeroPointBlob17 = .error (.tooSmall 17) := by
  refine ⟨⟨?_, ?_⟩, rfl, rfl⟩
  · intro h
    by_contra hlen
    unfold parseGeopackageGeometry at h
    rw [if_neg hlen] at h
    by_cases h2 : 8 ≤ l.length - 9
    · rw [if_neg (not_not_intro h2)] at h
      cases hx : readLE l 8 1 with
      | error e =>
        rw [hx] at h; cases h
        exact absurd (readLE_error_eq_oob hx) (by simp_all)
      | ok byte_order =>
        rw [hx] at h
        dsimp only at h
        by_cases h3 : byte_order ≠ 1
        · rw [if_pos h3] at h; cases h
        · rw [if_neg h3] at h
          by_cases h4 : 9 ≤ l.length - 4
          · rw [if_neg (not_not_intro h4)] at h
            cases ht : readLE l 9 4 with
            | error e =>
              rw [ht] at h; cases h
              exact absurd (readLE_error_eq_oob ht) (by simp_all)
            | ok wkb_type =>
              rw [ht] at h
              dsimp only at h
              by_cases h5 : wkb_type % 268435456 ≠ 2
              · rw [if_pos h5] at h; cases h
              · rw [if_neg h5] at h
                by_cases h6 : 13 ≤ l.length - 4
                · rw [if_neg (not_not_intro h6)] at h
                  cases hc : readLE l 13 4 with
                  | error e =>
                    rw [hc] at h; cases h
                    exact absurd (readLE_error_eq_oob hc) (by simp_all)
                  | ok num_points =>
                    rw [hc] at h
                    dsimp only at h
                    by_cases h7 : 1000000 < num_points
                    · rw [if_pos h7] at h; cases h
                    · rw [if_neg h7] at h
                      by_cases h8 : 17 ≤ l.length - 16 * num_points
                      · rw [if_neg (not_not_intro h8)] at h
                        exact absurd (readPoints_error_eq_oob h) (by simp)
                      · rw [if_pos h8] at h; cases h
                · rw [if_pos h6] at h; cases h
          · rw [if_pos h4] at h; cases h
    · rw [if_pos h2] at h; cases h
  · intro hlen
    unfold parseGeopackageGeometry
    rw [if_pos hlen]

/-! ## SqliteStatement::GetColumnText (sqlite_helpers.cc and sqlite_helpers.h)

A text column is modelled as `Option (List Nat)`: `none` is SQL NULL
(`sqlite3_column_text` returns a null pointer), `some bs` is the column's
byte content whose length is what `sqlite3_column_bytes` reports; the
bytes may include embedded NUL (0) bytes, and in memory they are followed
by a NUL terminator. The repository contains two implementations of the
accessor: the out-of-line one in `sqlite_helpers.cc` builds the string
from the pointer *and* the byte count, while the inline one in
`sqlite_helpers.h` builds it from the pointer alone, i.e. with a
null-terminated scan. -/

/-- Accessor `GetColumnText` from `sqlite_helpers.cc` (lines 84-91): uses
`sqlite3_column_bytes`, so the result is the exact column content. -/
def getColumnTextCc (col : Option (List Nat)) : List Nat :=
  match col with
  | some bs => bs
  | none => []

/-- Accessor `GetColumnText` from `sqlite_helpers.h` (lines 91-94):
`std::string(reinterpret_cast<const char*>(text))` scans up to the first
NUL byte. -/
def getColumnTextHeader (col : Option (List Nat)) : List Nat :=
  match col with
  | some bs => bs.takeWhile (fun b => b ≠ 0)
  | none => []

/-- Claim C8 (counterexample): on the column content "A\0B" (bytes
[65, 0, 66]) the inline header implementation returns only [65], so the
claim that *both* implementations return the exact byte length including
embedded NUL bytes is false. -/
theorem getColumnTextHeader_truncates_at_nul :
    getColumnTextHeader (some [65, 0, 66]) = [65] ∧
      getColumnTextHeader (some [65, 0, 66]) ≠ [65, 0, 66] := by
  constructor
  · rfl
  · decide

/-- Claim C8 (amended): the `sqlite_helpers.cc` accessor returns the
column's exact byte content (embedded NUL bytes included), the
`sqlite_helpers.h` accessor performs a null-terminated scan and therefore
agrees only on contents without embedded NUL bytes, and both yield the
empty string on a NULL column. -/
theorem getColumnText_exact_bytes (bs : List Nat) :
    getColumnTextCc (some bs) = bs ∧
      ((0 : Nat) ∉ bs → getColumnTextHeader (some bs) = bs) ∧
      getColumnTextCc none = [] ∧ getColumnTextHeader none = [] := by
  refine ⟨rfl, ?_, rfl, rfl⟩
  intro h0
  dsimp only [getColumnTextHeader]
  rw [List.takeWhile_eq_self_iff.mpr]
  intro a ha
  simp only [ne_eq, decide_not, Bool.not_eq_true', decide_eq_false_iff_not]
  exact fun hz => h0 (hz ▸ ha)

/-- Witness for C8's amended theorem at the concrete content "Hi"
(bytes [72, 105]), which has no embedded NUL. -/
theorem getColumnText_exact_bytes_witness :
    getColumnTextCc (some [72, 105]) = [72, 105] ∧
      ((0 : Nat) ∉ [72, 105] → getColumnTextHeader (some [72, 105]) = [72, 105]) ∧
      getColumnTextCc none = [] ∧ getColumnTextHeader none = [] :=
  getColumnText_exact_bytes [72, 105]

/-! ## Association-list helpers shared by the parser and manager embedding

`std::map` / `std::unordered_map` values are embedded as association
lists. `emplaceAssoc` models `emplace` (insert only if the key is
absent); `updateAssoc` models in-place mutation of the value stored under
an existing key (`map.at(k)` / iterator writes). Lookup is first-match,
and all operations below keep at most one entry per key when the initial
list does. -/

/-- First-match lookup in an association list (models map `find`/`at`). -/
def lookupAssoc {β : Type} : List (String × β) → String → Option β
  | [], _ => none
  | (k, b) :: rest, x => if x = k then some b else lookupAssoc rest x

/-- Map `emplace`: inserts `(k, v)` only when `k` is absent. -/
def emplaceAssoc {β : Type} (xs : List (String × β)) (k : String) (v : β) :
    List (String × β) :=
  if (lookupAssoc xs k).isSome then xs else xs ++ [(k, v)]

/-- In-place update of the value stored under an existing key `x` (no-op
when the key is absent). -/
def updateAssoc {β : Type} : List (String × β) → String → (β → β) → List (String × β)
  | [], _, _ => []
  | (k, b) :: rest, x, f =>
    if k = x then (k, f b) :: rest else (k, b) :: updateAssoc rest x f

lemma lookup_updateAssoc {β : Type} (xs : List (String × β)) (x y : String) (f : β → β) :
    lookupAssoc (updateAssoc xs x f) y =
      if y = x then (lookupAssoc xs x).map f else lookupAssoc xs y := by
  induction xs with
  | nil => simp [updateAssoc, lookupAssoc]
  | cons p rest ih =>
    obtain ⟨k, b⟩ := p
    by_cases hkx : k = x
    · subst hkx
      by_cases hyk : y = k
      · subst hyk
        simp [updateAssoc, lookupAssoc]
      · simp [updateAssoc, lookupAssoc, hyk]
    · by_cases hyk : y = k
      · subst hyk
        simp [updateAssoc, lookupAssoc, hkx, Ne.symm hkx]
      · simp only [updateAssoc, if_neg hkx, lookupAssoc, if_neg hyk, if_neg (Ne.symm hkx)]
        exact ih

lemma keys_updateAssoc {β : Type} (xs : List (String × β)) (x : String) (f : β → β) :
    (updateAssoc xs x f).map Prod.fst = xs.map Prod.fst := by
  induction xs with
  | nil => rfl
  | cons p rest ih =>
    obtain ⟨k, b⟩ := p
    by_cases hkx : k = x
    · simp [updateAssoc, hkx]
    · simp [updateAssoc, hkx, ih]

/-! ## Table parser referential check for segments
(geopackage_parser.cc, GeoPackageParser constructor, "2. Parse Segments")

Each row of `SELECT segment_id, junction_id, name FROM segments` is
modelled as a `(segment_id, junction_id, name)` triple, processed in
order; the parsed junction table is an association list. A row whose
`junction_id` is not a parsed junction fails the whole construction
(`MALIPUT_VALIDATE` throws), so no partial result is exposed. -/

/-- Segment record as built at this point of the constructor (its `lanes`
vector is still empty and plays no role in the referential check). -/
structure PSegment where
  id : String
deriving DecidableEq, Repr

/-- Junction record holding its `segments` map. -/
structure PJunction where
  id : String
  segments : List (String × PSegment)
deriving DecidableEq, Repr

/-- The "2. Parse Segments" loop: for each row, build the segment, look
its `junction_id` up in the junction map, fail construction when absent,
otherwise `emplace` the segment into that junction. -/
def parseSegments (junctions : List (String × PJunction)) :
    List (String × String × String) → Except String (List (String × PJunction))
  | [] => .ok junctions
  | (segment_id, junction_id, _name) :: rest =>
    if (lookupAssoc junctions junction_id).isSome then
      parseSegments
        (updateAssoc junctions junction_id
          (fun j => { j with segments := emplaceAssoc j.segments segment_id ⟨segment_id⟩ }))
        rest
    else .error ("Segment " ++ segment_id ++ " references unknown junction " ++ junction_id ++ ".")

/-- Claim C7: if any segment row's `junction_id` does not reference an
existing junction, the segment parse fails with the dangling-foreign-key
error, so construction aborts and no partial road network is exposed; in
particular no such segment is silently dropped. -/
theorem parseSegments_fails_on_dangling_junction
    (junctions : List (String × PJunction)) (rows : List (String × String × String))
    (h : ∃ r ∈ rows, lookupAssoc junctions r.2.1 = none) :
    ∃ msg, parseSegments junctions rows = .error msg := by
  induction rows generalizing junctions with
  | nil => obtain ⟨r, hr, -⟩ := h; exact absurd hr (by simp)
  | cons row rest ih =>
    obtain ⟨segment_id, junction_id, name⟩ := row
    obtain ⟨r, hr, hnone⟩ := h
    by_cases hpresent : (lookupAssoc junctions junction_id).isSome
    · rcases List.mem_cons.mp hr with hEq | hmem
      · subst hEq
        simp only at hnone
        rw [hnone] at hpresent
        exact absurd hpresent (by simp)
      · simp only [parseSegments, if_pos hpresent]
        refine ih _ ⟨r, hmem, ?_⟩
        rw [lookup_updateAssoc]
        split
        · next heq => rw [heq] at hnone; rw [hnone]; rfl
        · exact hnone
    · exact ⟨"Segment " ++ segment_id ++ " references unknown junction " ++ junction_id ++ ".",
        by simp only [parseSegments, if_neg hpresent]⟩

/-- Witness for C7 at a concrete database: one junction "j1" and one
segment row referencing the unknown junction "jX". -/
theorem parseSegments_fails_on_dangling_junction_witness :
    ∃ msg, parseSegments [("j1", ⟨"j1", []⟩)] [("seg1", "jX", "S")] = .error msg :=
  parseSegments_fails_on_dangling_junction [("j1", ⟨"j1", []⟩)] [("seg1", "jX", "S")]
    ⟨("seg1", "jX", "S"), by decide, by decide⟩

/-! ## Topology manager data model (geopackage_manager.cc)

`maliput_sparse::parser::LaneEnd::Which`, `LaneEnd` and `Lane` as consumed
by the manager. The `predecessors` and `successors` members are maps from
peer lane id to `LaneEnd`, embedded as association lists filled only by
`emplace` (so insertion order is the list order and keys stay unique). -/

/-- Enum `LaneEnd::Which`: `kStart` orders before `kFinish`. -/
inductive Which where
  | start : Which
  | finish : Which
deriving DecidableEq, Repr

/-- Record `LaneEnd`: a lane id with the end of that lane. -/
structure LaneEndT where
  lane_id : String
  which : Which
deriving DecidableEq, Repr

/-- Record `maliput_sparse::parser::Lane` as the manager builds it: id, the two
boundary polylines, optional left/right adjacent lane ids, and the
predecessor/successor maps. -/
structure LaneT where
  id : String
  left_boundary : List Pt
  right_boundary : List Pt
  left_lane_id : Option String
  right_lane_id : Option String
  predecessors : List (String × LaneEndT)
  successors : List (String × LaneEndT)
deriving DecidableEq, Repr, Inhabited

/-! ## GeoPackageManager::SortLanes (geopackage_manager.cc lines 201-266)

The C++ routine works on indices: `id_to_index` (later duplicates
overwrite earlier ones, as with `unordered_map::operator[]`), the start
candidates (lanes without an in-segment right neighbor, falling back to
index 0), the chain walks guarded by the `moved` bit-vector, and the final
append of unmoved lanes in original order. The walk's `while (true)` loop
is embedded with fuel `n + 1`, which the termination argument below (each
non-breaking iteration marks an unmarked index) shows is never
exhausted. -/

/-- The `id_to_index` map restricted to one query: the index stored for
`idStr` after inserting indices 0.. in order with overwrite. -/
def idToIndex (ls : List LaneT) (idStr : String) : Option Nat :=
  (List.range ls.length).foldl
    (fun acc i => if (ls.getD i default).id = idStr then some i else acc) none

/-- Whether a lane's `right_lane_id` refers to a lane inside the segment. -/
def hasRightInSegment (ls : List LaneT) (l : LaneT) : Bool :=
  match l.right_lane_id with
  | none => false
  | some r => (idToIndex ls r).isSome

/-- Indices of the start candidates: lanes with no in-segment right
neighbor, in original enumeration order. -/
def startCandidates (ls : List LaneT) : List Nat :=
  (List.range ls.length).filter (fun i => ! hasRightInSegment ls (ls.getD i default))

/-- Start indices actually walked: the candidates, or `[0]` when there is
no candidate and the segment is nonempty (cycle fallback). -/
def startIndices (ls : List LaneT) : List Nat :=
  if startCandidates ls = [] ∧ ls ≠ [] then [0] else startCandidates ls

/-- One chain walk from index `i`: stop on an already-moved index,
otherwise mark the index, emit it, and follow `left_lane_id` while it
resolves to an in-segment index. Out-of-range `moved` lookups default to
`true` (they never occur: walked indices come from `id_to_index`). -/
def walk (ls : List LaneT) : Nat → List Bool → Nat → List Nat × List Bool
  | 0, moved, _ => ([], moved)
  | fuel + 1, moved, i =>
    if moved.getD i true then ([], moved)
    else
      match (ls.getD i default).left_lane_id with
      | none => ([i], moved.set i true)
      | some lid =>
        match idToIndex ls lid with
        | none => ([i], moved.set i true)
        | some j =>
          ((walk ls fuel (moved.set i true) j).1.cons i,
            (walk ls fuel (moved.set i true) j).2)

/-- One iteration of the outer loop over the start indices. -/
def sortStep (ls : List LaneT) (acc : List Nat × List Bool) (s : Nat) :
    List Nat × List Bool :=
  (acc.1 ++ (walk ls (ls.length + 1) acc.2 s).1, (walk ls (ls.length + 1) acc.2 s).2)

/-- Index order produced by `SortLanes`: the concatenated walks followed
by the not-yet-moved indices in original order. -/
def sortLanesIdx (ls : List LaneT) : List Nat :=
  ((startIndices ls).foldl (sortStep ls) ([], List.replicate ls.length false)).1 ++
    (List.range ls.length).filter
      (fun i => ! ((startIndices ls).foldl (sortStep ls) ([], List.replicate ls.length false)).2.getD i true)

/-- Routine `GeoPackageManager::SortLanes`: early return on the empty vector, else
the lanes rearranged along `sortLanesIdx`. -/
def sortLanes (ls : List LaneT) : List LaneT :=
  if ls.isEmpty then ls else (sortLanesIdx ls).map (fun i => ls.getD i default)

lemma getD_replicate_false {n i : Nat} (h : i < n) :
    (List.replicate n false).getD i true = false := by
  induction n generalizing i with
  | zero => omega
  | succ n ih =>
    cases i with
    | zero => rfl
    | succ i => exact ih (by omega)

lemma getD_lt_of_ne_default {m : List Bool} {i : Nat} (h : m.getD i true = false) :
    i < m.length := by
  by_contra hge
  rw [List.getD_eq_default _ _ (by omega)] at h
  cases h

lemma getD_set_true_self {m : List Bool} {i : Nat} (h : i < m.length) :
    (m.set i true).getD i true = true := by
  induction m generalizing i with
  | nil => simp at h
  | cons b rest ih =>
    cases i with
    | zero => rfl
    | succ i => exact ih (by simpa using h)

lemma getD_set_true_ne {m : List Bool} {i j : Nat} (h : j ≠ i) {d : Bool} :
    (m.set i true).getD j d = m.getD j d := by
  induction m generalizing i j with
  | nil => simp [List.set]
  | cons b rest ih =>
    cases i with
    | zero =>
      cases j with
      | zero => exact absurd rfl h
      | succ j => rfl
    | succ i =>
      cases j with
      | zero => rfl
      | succ j => exact ih (fun hji => h (by omega))

lemma count_false_set_true {m : List Bool} {i : Nat} (h : m.getD i true = false) :
    (m.set i true).count false < m.count false := by
  induction m generalizing i with
  | nil => rw [List.getD_eq_default _ _ (by simp)] at h; cases h
  | cons b rest ih =>
    cases i with
    | zero =>
      have hb : b = false := h
      subst hb
      simp [List.count_cons]
    | succ i =>
      have := ih (i := i) h
      simp only [List.set, List.count_cons]
      omega

/-- One-step unfolding of `walk` at positive fuel (definitional). -/
lemma walk_succ (ls : List LaneT) (fuel : Nat) (moved : List Bool) (i : Nat) :
    walk ls (fuel + 1) moved i =
      if moved.getD i true then ([], moved)
      else
        match (ls.getD i default).left_lane_id with
        | none => ([i], moved.set i true)
        | some lid =>
          match idToIndex ls lid with
          | none => ([i], moved.set i true)
          | some j =>
            ((walk ls fuel (moved.set i true) j).1.cons i,
              (walk ls fuel (moved.set i true) j).2) := rfl

lemma walk_succ_moved {moved : List Bool} {i : Nat} (ls : List LaneT) (fuel : Nat)
    (h : moved.getD i true = true) : walk ls (fuel + 1) moved i = ([], moved) := by
  rw [walk_succ, if_pos h]

lemma walk_succ_noleft {moved : List Bool} {i : Nat} (ls : List LaneT) (fuel : Nat)
    (h : moved.getD i true = false) (hlid : (ls.getD i default).left_lane_id = none) :
    walk ls (fuel + 1) moved i = ([i], moved.set i true) := by
  rw [walk_succ, if_neg (by rw [h]; exact Bool.false_ne_true), hlid]

lemma walk_succ_outside {moved : List Bool} {i : Nat} {lid : String} (ls : List LaneT)
    (fuel : Nat) (h : moved.getD i true = false)
    (hlid : (ls.getD i default).left_lane_id = some lid) (hj : idToIndex ls lid = none) :
    walk ls (fuel + 1) moved i = ([i], moved.set i true) := by
  rw [walk_succ, if_neg (by rw [h]; exact Bool.false_ne_true), hlid]
  dsimp only
  rw [hj]

lemma walk_succ_step {moved : List Bool} {i jnext : Nat} {lid : String} (ls : List LaneT)
    (fuel : Nat) (h : moved.getD i true = false)
    (hlid : (ls.getD i default).left_lane_id = some lid) (hj : idToIndex ls lid = some jnext) :
    walk ls (fuel + 1) moved i
      = ((walk ls fuel (moved.set i true) jnext).1.cons i,
         (walk ls fuel (moved.set i true) jnext).2) := by
  rw [walk_succ, if_neg (by rw [h]; exact Bool.false_ne_true), hlid]
  dsimp only
  rw [hj]

/-- Specification of one chain walk: with enough fuel (it marks a fresh
index each round) the walk keeps the `moved` length, emits distinct
indices that were unmoved and in range on entry, and the resulting
`moved` marks exactly the old marks plus the emitted indices. -/
lemma walk_spec (ls : List LaneT) :
    ∀ (fuel : Nat) (moved : List Bool) (i : Nat),
      moved.length = ls.length →
      moved.count false < fuel →
      (walk ls fuel moved i).2.length = ls.length ∧
      (walk ls fuel moved i).1.Nodup ∧
      (∀ j ∈ (walk ls fuel moved i).1, j < ls.length ∧ moved.getD j true = false) ∧
      (∀ j, (walk ls fuel moved i).2.getD j true
        = (moved.getD j true || decide (j ∈ (walk ls fuel moved i).1))) := by
  intro fuel
  induction fuel with
  | zero => intro moved i hlen hcnt; omega
  | succ fuel ih =>
    intro moved i hlen hcnt
    by_cases hmi : moved.getD i true = true
    · have hw : walk ls (fuel + 1) moved i = ([], moved) := walk_succ_moved ls fuel hmi
      rw [hw]
      simp [hlen]
    · have hfalse : moved.getD i true = false := by
        cases hval : moved.getD i true
        · rfl
        · exact absurd hval hmi
      have hilt : i < moved.length := getD_lt_of_ne_default hfalse
      have hiltl : i < ls.length := hlen ▸ hilt
      have hterm : walk ls (fuel + 1) moved i = ([i], moved.set i true) →
          (walk ls (fuel + 1) moved i).2.length = ls.length ∧
          (walk ls (fuel + 1) moved i).1.Nodup ∧
          (∀ j ∈ (walk ls (fuel + 1) moved i).1, j < ls.length ∧ moved.getD j true = false) ∧
          (∀ j, (walk ls (fuel + 1) moved i).2.getD j true
            = (moved.getD j true || decide (j ∈ (walk ls (fuel + 1) moved i).1))) := by
        intro hw
        rw [hw]
        refine ⟨by simp [hlen], by simp, ?_, ?_⟩
        · intro j hj
          rw [List.mem_singleton] at hj
          subst hj
          exact ⟨hiltl, hfalse⟩
        · intro j
          by_cases hji : j = i
          · subst hji
            rw [getD_set_true_self hilt]
            simp
          · rw [getD_set_true_ne hji]
            simp [hji]
      cases hlid : (ls.getD i default).left_lane_id with
      | none =>
        exact hterm (walk_succ_noleft ls fuel hfalse hlid)
      | some lid =>
        cases hj : idToIndex ls lid with
        | none =>
          exact hterm (walk_succ_outside ls fuel hfalse hlid hj)
        | some jnext =>
          have hw : walk ls (fuel + 1) moved i
              = ((walk ls fuel (moved.set i true) jnext).1.cons i,
                 (walk ls fuel (moved.set i true) jnext).2) :=
            walk_succ_step ls fuel hfalse hlid hj
          have hlen' : (moved.set i true).length = ls.length := by simp [hlen]
          have hcnt' : (moved.set i true).count false < fuel := by
            have := count_false_set_true hfalse
            omega
          obtain ⟨ih1, ih2, ih3, ih4⟩ := ih (moved.set i true) jnext hlen' hcnt'
          rw [hw]
          dsimp only [List.cons]
          refine ⟨ih1, ?_, ?_, ?_⟩
          · rw [List.nodup_cons]
            refine ⟨?_, ih2⟩
            intro hmem
            have := (ih3 i hmem).2
            rw [getD_set_true_self hilt] at this
            cases this
          · intro j hjm
            rcases List.mem_cons.mp hjm with hji | hjm'
            · subst hji
              exact ⟨hiltl, hfalse⟩
            · obtain ⟨hjl, hjset⟩ := ih3 j hjm'
              refine ⟨hjl, ?_⟩
              by_cases hjeq : j = i
              · subst hjeq
                rw [getD_set_true_self hilt] at hjset
                cases hjset
              · rwa [getD_set_true_ne hjeq] at hjset
          · intro j
            rw [ih4 j]
            by_cases hjeq : j = i
            · subst hjeq
              rw [getD_set_true_self hilt]
              simp [hfalse]
            · rw [getD_set_true_ne hjeq]
              simp [hjeq]

/-- Specification of the outer fold over the start indices: the placed
list stays duplicate-free and in range, and the `moved` vector marks
exactly the placed indices (plus the out-of-range default). -/
lemma sortFold_spec (ls : List LaneT) (starts : List Nat) :
    ∀ acc : List Nat × List Bool,
      acc.2.length = ls.length →
      acc.1.Nodup →
      (∀ j ∈ acc.1, j < ls.length) →
      (∀ j, acc.2.getD j true = (decide (j ∈ acc.1) || decide (ls.length ≤ j))) →
      (starts.foldl (sortStep ls) acc).2.length = ls.length ∧
      (starts.foldl (sortStep ls) acc).1.Nodup ∧
      (∀ j ∈ (starts.foldl (sortStep ls) acc).1, j < ls.length) ∧
      (∀ j, (starts.foldl (sortStep ls) acc).2.getD j true
        = (decide (j ∈ (starts.foldl (sortStep ls) acc).1) || decide (ls.length ≤ j))) := by
  induction starts with
  | nil => intro acc h1 h2 h3 h4; exact ⟨h1, h2, h3, h4⟩
  | cons s ss ih =>
    intro acc h1 h2 h3 h4
    rw [List.foldl_cons]
    have hcnt : acc.2.count false < ls.length + 1 := by
      have := List.count_le_length (l := acc.2) (a := false)
      omega
    obtain ⟨w1, w2, w3, w4⟩ := walk_spec ls (ls.length + 1) acc.2 s h1 hcnt
    apply ih
    · exact w1
    · refine List.Nodup.append h2 w2 ?_
      intro a ha1 ha2
      have hfalse := (w3 a ha2).2
      rw [h4 a] at hfalse
      have : decide (a ∈ acc.1) = false := by
        cases hda : decide (a ∈ acc.1)
        · rfl
        · rw [hda] at hfalse; cases hfalse
      exact absurd ha1 (by simpa using this)
    · intro j hj
      rcases List.mem_append.mp hj with hj' | hj'
      · exact h3 j hj'
      · exact (w3 j hj').1
    · intro j
      dsimp only [sortStep]
      rw [w4 j, h4 j]
      by_cases h5 : j ∈ acc.1 <;> by_cases h6 : j ∈ (walk ls (ls.length + 1) acc.2 s).1 <;>
        simp [h5, h6, List.mem_append]

lemma map_getD_range {α : Type} (l : List α) (d : α) :
    (List.range l.length).map (fun i => l.getD i d) = l := by
  induction l with
  | nil => rfl
  | cons a rest ih =>
    rw [List.length_cons, List.range_succ_eq_map, List.map_cons, List.map_map]
    have hfun : ((fun i => (a :: rest).getD i d) ∘ Nat.succ) = fun i => rest.getD i d := by
      funext i
      simp
    rw [hfun, ih]
    rfl

/-- The index order produced by `SortLanes` is a permutation of
`0, ..., n-1`. -/
lemma sortLanesIdx_perm (ls : List LaneT) :
    (sortLanesIdx ls).Perm (List.range ls.length) := by
  have hinit4 : ∀ j, (List.replicate ls.length false).getD j true
      = (decide (j ∈ ([] : List Nat)) || decide (ls.length ≤ j)) := by
    intro j
    by_cases hj : ls.length ≤ j
    · rw [List.getD_eq_default _ _ (by simpa using hj)]
      simp [hj]
    · rw [getD_replicate_false (by omega)]
      simp [hj]
  obtain ⟨f1, f2, f3, f4⟩ := sortFold_spec ls (startIndices ls)
    ([], List.replicate ls.length false) (by simp) (by simp) (by simp) hinit4
  have hnodupL : (sortLanesIdx ls).Nodup := by
    unfold sortLanesIdx
    refine List.Nodup.append f2 (List.Nodup.filter _ (List.nodup_range _)) ?_
    intro a ha1 ha2
    have hflt := (List.mem_filter.mp ha2).2
    rw [f4 a] at hflt
    simp [ha1] at hflt
  refine (List.perm_ext_iff_of_nodup hnodupL (List.nodup_range _)).mpr ?_
  intro a
  unfold sortLanesIdx
  rw [List.mem_append, List.mem_range]
  constructor
  · rintro (ha | ha)
    · exact f3 a ha
    · exact List.mem_range.mp (List.mem_filter.mp ha).1
  · intro ha
    by_cases hmem : a ∈ ((startIndices ls).foldl (sortStep ls)
        ([], List.replicate ls.length false)).1
    · exact Or.inl hmem
    · refine Or.inr (List.mem_filter.mpr ⟨List.mem_range.mpr ha, ?_⟩)
      rw [f4 a]
      simp [hmem]
      omega

/-- A walk started on an unmoved index emits that index first. -/
lemma walk_cons (ls : List LaneT) (fuel : Nat) (moved : List Bool) (i : Nat)
    (h : moved.getD i true = false) :
    ∃ t, (walk ls (fuel + 1) moved i).1 = i :: t := by
  cases hlid : (ls.getD i default).left_lane_id with
  | none =>
    exact ⟨[], by rw [walk_succ_noleft ls fuel h hlid]⟩
  | some lid =>
    cases hj : idToIndex ls lid with
    | none =>
      exact ⟨[], by rw [walk_succ_outside ls fuel h hlid hj]⟩
    | some jnext =>
      exact ⟨(walk ls fuel (moved.set i true) jnext).1, by
        rw [walk_succ_step ls fuel h hlid hj]⟩

lemma foldl_sortStep_extends (ls : List LaneT) (starts : List Nat) :
    ∀ acc : List Nat × List Bool, ∃ t, (starts.foldl (sortStep ls) acc).1 = acc.1 ++ t := by
  induction starts with
  | nil => intro acc; exact ⟨[], (List.append_nil _).symm⟩
  | cons s ss ih =>
    intro acc
    obtain ⟨t, ht⟩ := ih (sortStep ls acc s)
    refine ⟨(walk ls (ls.length + 1) acc.2 s).1 ++ t, ?_⟩
    rw [List.foldl_cons, ht]
    dsimp only [sortStep]
    rw [List.append_assoc]

/-- Claim C1: `SortLanes` returns a permutation of the lanes of the
segment — every lane appears exactly once — and, whenever some lane has
no right neighbor inside the segment, the first lane of the result is
such a rightmost lane (the first start candidate); the remaining order
follows the `left_lane_id` chain walks with unplaced lanes appended, as
embodied by `sortLanesIdx`. -/
theorem sortLanes_permutation (ls : List LaneT) :
    (sortLanes ls).Perm ls ∧
      (startCandidates ls ≠ [] →
        ∃ l0, (sortLanes ls).head? = some l0 ∧ hasRightInSegment ls l0 = false) := by
  constructor
  · by_cases hem : ls.isEmpty
    · unfold sortLanes
      rw [if_pos hem]
    · unfold sortLanes
      rw [if_neg hem]
      have hperm := (sortLanesIdx_perm ls).map (fun i => ls.getD i default)
      rwa [map_getD_range ls default] at hperm
  · intro hne
    obtain ⟨s0, rest, hsc⟩ : ∃ s0 rest, startCandidates ls = s0 :: rest := by
      cases hcs : startCandidates ls with
      | nil => exact absurd hcs hne
      | cons a t => exact ⟨a, t, rfl⟩
    have hs0mem : s0 ∈ startCandidates ls := by rw [hsc]; exact List.mem_cons_self _ _
    have hs0lt : s0 < ls.length :=
      List.mem_range.mp (List.mem_filter.mp hs0mem).1
    have hs0cand : hasRightInSegment ls (ls.getD s0 default) = false := by
      have := (List.mem_filter.mp hs0mem).2
      simpa using this
    have hsi : startIndices ls = s0 :: rest := by
      unfold startIndices
      rw [if_neg (by rw [hsc]; rintro ⟨h', -⟩; cases h'), hsc]
    have hnonempty : ls.isEmpty = false := by
      cases ls with
      | nil => simp at hs0lt
      | cons a t => rfl
    obtain ⟨t0, ht0⟩ := walk_cons ls ls.length (List.replicate ls.length false) s0
      (getD_replicate_false hs0lt)
    obtain ⟨t1, ht1⟩ := foldl_sortStep_extends ls rest
      (sortStep ls ([], List.replicate ls.length false) s0)
    have hhead : ∃ tl, sortLanesIdx ls = s0 :: tl := by
      unfold sortLanesIdx
      rw [hsi, List.foldl_cons, ht1]
      dsimp only [sortStep]
      rw [List.nil_append, ht0]
      exact ⟨(t0 ++ t1) ++ _, by rw [List.cons_append, List.cons_append]⟩
    obtain ⟨tl, htl⟩ := hhead
    refine ⟨ls.getD s0 default, ?_, hs0cand⟩
    unfold sortLanes
    rw [if_neg (by simp [hnonempty]), htl]
    rfl

/-- A concrete two-lane segment (scenario S1's seg1): lane_1 has lane_2 to
its right, lane_2 has lane_1 to its left and no right neighbor. -/
def exSegLanes : List LaneT :=
  [⟨"lane_1", [], [], none, some "lane_2", [], []⟩,
   ⟨"lane_2", [], [], some "lane_1", none, [], []⟩]

/-- Witness for C1 on the concrete segment: the sorted lanes are a
permutation of the input and start at a lane without in-segment right
neighbor. -/
theorem sortLanes_permutation_witness :
    (sortLanes exSegLanes).Perm exSegLanes ∧
      (∃ l0, (sortLanes exSegLanes).head? = some l0 ∧
        hasRightInSegment exSegLanes l0 = false) :=
  ⟨(sortLanes_permutation exSegLanes).1,
   (sortLanes_permutation exSegLanes).2 (by decide)⟩

/-! ## Branch-point resolution (geopackage_manager.cc lines 96-129)

`StrToLaneEndWhich` throws on anything but "start"/"finish"; each side-a
times side-b pair first parses both lane ends and then performs two map
`emplace`s: on lane A into its predecessors (end_a = Start) or successors
(otherwise) under key B with value `{B, end_b}`, and symmetrically on
lane B. `lanes.at` throws when a referenced lane is missing. Every
insertion is represented by an `Ins` record so that the final maps can be
related to the stream of attempted insertions. -/

/-- Record `GPKGBranchPointLane` (geopackage_parser.h). -/
structure GPKGBranchPointLaneT where
  lane_id : String
  side : String
  lane_end : String
deriving DecidableEq, Repr

/-- Routine `GeoPackageManager::StrToLaneEndWhich`. -/
def strToLaneEndWhich (s : String) : Except String Which :=
  if s = "start" then .ok .start
  else if s = "finish" then .ok .finish
  else .error ("Invalid lane end: " ++ s)

/-- Whether a lane end is `kStart` (selects the predecessors map). -/
def whichIsStart : Which → Bool
  | .start => true
  | .finish => false

/-- One attempted map insertion: on lane `target`, into its predecessors
(`toPred`) or successors, under key `key` with value `val`. -/
structure Ins where
  target : String
  toPred : Bool
  key : String
  val : LaneEndT
deriving DecidableEq, Repr

/-- The lane table being mutated (`std::unordered_map<std::string, Lane>`). -/
abbrev LaneMap := List (String × LaneT)

/-- The mutation one insertion performs on its target lane. -/
def applyEdge (i : Ins) (l : LaneT) : LaneT :=
  if i.toPred then { l with predecessors := emplaceAssoc l.predecessors i.key i.val }
  else { l with successors := emplaceAssoc l.successors i.key i.val }

/-- Apply one insertion (total; no-op when the target lane is absent). -/
def applyInsT (st : LaneMap) (i : Ins) : LaneMap :=
  updateAssoc st i.target (applyEdge i)

/-- Apply one insertion as the source does: `lanes.at(...)` throws when
the target lane is missing. -/
def applyInsE (st : LaneMap) (i : Ins) : Except String LaneMap :=
  if (lookupAssoc st i.target).isSome then .ok (applyInsT st i)
  else .error ("lanes.at: missing lane " ++ i.target)

/-- Apply a list of insertions left to right, failing on a missing lane. -/
def applyAllE : LaneMap → List Ins → Except String LaneMap
  | st, [] => .ok st
  | st, i :: rest =>
    match applyInsE st i with
    | .error e => .error e
    | .ok st1 => applyAllE st1 rest

/-- Total counterpart of `applyAllE`. -/
def applyAllT (st : LaneMap) (is : List Ins) : LaneMap :=
  is.foldl applyInsT st

/-- The two insertions a side-a/side-b pair generates: ends are parsed
first (both throws precede any mutation), then lane A is updated, then
lane B. -/
def insOfPair (la lb : GPKGBranchPointLaneT) : Except String (List Ins) :=
  match strToLaneEndWhich la.lane_end with
  | .error e => .error e
  | .ok ea =>
    match strToLaneEndWhich lb.lane_end with
    | .error e => .error e
    | .ok eb =>
      .ok [⟨la.lane_id, whichIsStart ea, lb.lane_id, ⟨lb.lane_id, eb⟩⟩,
           ⟨lb.lane_id, whichIsStart eb, la.lane_id, ⟨la.lane_id, ea⟩⟩]

/-- Process one pair `(la, lb)`. -/
def applyPair (st : LaneMap) (la lb : GPKGBranchPointLaneT) : Except String LaneMap :=
  match insOfPair la lb with
  | .error e => .error e
  | .ok is => applyAllE st is

/-- Inner loop: one side-a entry against every side-b entry in order. -/
def applyCross (st : LaneMap) (la : GPKGBranchPointLaneT) :
    List GPKGBranchPointLaneT → Except String LaneMap
  | [] => .ok st
  | lb :: rest =>
    match applyPair st la lb with
    | .error e => .error e
    | .ok st1 => applyCross st1 la rest

/-- Outer loop over the side-a entries. -/
def applySideA (st : LaneMap) (side_b : List GPKGBranchPointLaneT) :
    List GPKGBranchPointLaneT → Except String LaneMap
  | [] => .ok st
  | la :: rest =>
    match applyCross st la side_b with
    | .error e => .error e
    | .ok st1 => applySideA st1 side_b rest

/-- One branch point: partition into sides "a" and "b" (other sides are
ignored) and connect A to B pairwise. -/
def applyBranchPoint (st : LaneMap) (bpls : List GPKGBranchPointLaneT) :
    Except String LaneMap :=
  applySideA st (bpls.filter (fun b => b.side = "b")) (bpls.filter (fun b => b.side = "a"))

/-- The whole branch-point phase of the `GeoPackageManager` constructor. -/
def phaseB : LaneMap → List (String × List GPKGBranchPointLaneT) → Except String LaneMap
  | st, [] => .ok st
  | st, bp :: rest =>
    match applyBranchPoint st bp.2 with
    | .error e => .error e
    | .ok st1 => phaseB st1 rest

/-- Insertion stream of one side-a entry against a side-b list. -/
def insOfCross (la : GPKGBranchPointLaneT) :
    List GPKGBranchPointLaneT → Except String (List Ins)
  | [] => .ok []
  | lb :: rest =>
    match insOfPair la lb with
    | .error e => .error e
    | .ok is =>
      match insOfCross la rest with
      | .error e => .error e
      | .ok more => .ok (is ++ more)

/-- Insertion stream of a whole side-a list. -/
def insOfSideA (side_b : List GPKGBranchPointLaneT) :
    List GPKGBranchPointLaneT → Except String (List Ins)
  | [] => .ok []
  | la :: rest =>
    match insOfCross la side_b with
    | .error e => .error e
    | .ok is =>
      match insOfSideA side_b rest with
      | .error e => .error e
      | .ok more => .ok (is ++ more)

/-- Insertion stream of one branch point. -/
def insOfBp (bpls : List GPKGBranchPointLaneT) : Except String (List Ins) :=
  insOfSideA (bpls.filter (fun b => b.side = "b")) (bpls.filter (fun b => b.side = "a"))

/-- Insertion stream of the whole branch-point phase. -/
def insStream : List (String × List GPKGBranchPointLaneT) → Except String (List Ins)
  | [] => .ok []
  | bp :: rest =>
    match insOfBp bp.2 with
    | .error e => .error e
    | .ok is =>
      match insStream rest with
      | .error e => .error e
      | .ok more => .ok (is ++ more)

/-! ## Connection list (geopackage_manager.cc lines 160-181)

`Connection` is the pair of lane ends; the constructor collects one raw
connection per predecessor/successor edge of every lane, sorts with the
lexicographic comparator of lines 175-180 and removes consecutive
duplicates with `std::unique` (full 4-tuple equality). -/

/-- Record `maliput_sparse::parser::Connection`: `fromEnd` and `toEnd` embed the
source's `from` and `to` members (`from` is reserved in Lean). -/
structure ConnT where
  fromEnd : LaneEndT
  toEnd : LaneEndT
deriving DecidableEq, Repr

/-- Enum comparison `LaneEnd::Which`: `kStart < kFinish`. -/
def whichLt : Which → Which → Bool
  | .start, .finish => true
  | _, _ => false

/-- The comparator passed to `std::sort` (lines 175-180). -/
def connLt (a b : ConnT) : Bool :=
  if a.fromEnd.lane_id ≠ b.fromEnd.lane_id then decide (a.fromEnd.lane_id < b.fromEnd.lane_id)
  else if a.fromEnd.which ≠ b.fromEnd.which then whichLt a.fromEnd.which b.fromEnd.which
  else if a.toEnd.lane_id ≠ b.toEnd.lane_id then decide (a.toEnd.lane_id < b.toEnd.lane_id)
  else whichLt a.toEnd.which b.toEnd.which

/-- Propositional reading of the comparator as a lexicographic strict
order on the 4-tuple. -/
def connLtP (a b : ConnT) : Prop :=
  a.fromEnd.lane_id < b.fromEnd.lane_id ∨
    (a.fromEnd.lane_id = b.fromEnd.lane_id ∧
      (whichLt a.fromEnd.which b.fromEnd.which = true ∨
        (a.fromEnd.which = b.fromEnd.which ∧
          (a.toEnd.lane_id < b.toEnd.lane_id ∨
            (a.toEnd.lane_id = b.toEnd.lane_id ∧
              whichLt a.toEnd.which b.toEnd.which = true)))))

lemma whichLt_irrefl : ∀ x : Which, whichLt x x = false := by
  intro x
  cases x <;> rfl

lemma whichLt_asymm : ∀ x y : Which, whichLt x y = true → whichLt y x = false := by
  intro x y
  cases x <;> cases y <;> simp [whichLt]

lemma whichLt_trans : ∀ x y z : Which,
    whichLt x y = true → whichLt y z = true → whichLt x z = true := by
  intro x y z
  cases x <;> cases y <;> cases z <;> simp [whichLt]

lemma whichLt_connect : ∀ x y : Which,
    whichLt x y = false → whichLt y x = false → x = y := by
  intro x y
  cases x <;> cases y <;> simp [whichLt]

lemma connLt_iff (a b : ConnT) : connLt a b = true ↔ connLtP a b := by
  unfold connLt connLtP
  by_cases h1 : a.fromEnd.lane_id = b.fromEnd.lane_id
  · rw [if_neg (not_not_intro h1)]
    by_cases h2 : a.fromEnd.which = b.fromEnd.which
    · rw [if_neg (not_not_intro h2)]
      by_cases h3 : a.toEnd.lane_id = b.toEnd.lane_id
      · rw [if_neg (not_not_intro h3)]
        constructor
        · intro hw
          exact Or.inr ⟨h1, Or.inr ⟨h2, Or.inr ⟨h3, hw⟩⟩⟩
        · rintro (hlt | ⟨-, hw | ⟨-, hlt | ⟨-, hw⟩⟩⟩)
          · exact absurd hlt (by rw [h1]; exact lt_irrefl _)
          · rw [h2, whichLt_irrefl] at hw
            cases hw
          · exact absurd hlt (by rw [h3]; exact lt_irrefl _)
          · exact hw
      · rw [if_pos h3]
        constructor
        · intro hd
          exact Or.inr ⟨h1, Or.inr ⟨h2, Or.inl (of_decide_eq_true hd)⟩⟩
        · rintro (hlt | ⟨-, hw | ⟨-, hlt | ⟨e3, -⟩⟩⟩)
          · exact absurd hlt (by rw [h1]; exact lt_irrefl _)
          · rw [h2, whichLt_irrefl] at hw
            cases hw
          · exact decide_eq_true hlt
          · exact absurd e3 h3
    · rw [if_pos h2]
      constructor
      · intro hw
        exact Or.inr ⟨h1, Or.inl hw⟩
      · rintro (hlt | ⟨-, hw | ⟨e2, -⟩⟩)
        · exact absurd hlt (by rw [h1]; exact lt_irrefl _)
        · exact hw
        · exact absurd e2 h2
  · rw [if_pos h1]
    constructor
    · intro hd
      exact Or.inl (of_decide_eq_true hd)
    · rintro (hlt | ⟨e1, -⟩)
      · exact decide_eq_true hlt
      · exact absurd e1 h1

/-- The relation `std::sort` establishes between successive elements:
the later one is not smaller. -/
def connLe (a b : ConnT) : Prop := connLt b a = false

lemma connLtP_trans {a b c : ConnT} (hab : connLtP a b) (hbc : connLtP b c) :
    connLtP a c := by
  unfold connLtP at hab hbc ⊢
  rcases hab with h1 | ⟨e1, hab⟩
  · rcases hbc with h1' | ⟨e1', -⟩
    · exact Or.inl (lt_trans h1 h1')
    · exact Or.inl (e1' ▸ h1)
  · rcases hbc with h1' | ⟨e1', hbc⟩
    · exact Or.inl (e1 ▸ h1')
    · refine Or.inr ⟨e1.trans e1', ?_⟩
      rcases hab with h2 | ⟨e2, hab⟩
      · rcases hbc with h2' | ⟨e2', -⟩
        · exact Or.inl (whichLt_trans _ _ _ h2 h2')
        · exact Or.inl (e2' ▸ h2)
      · rcases hbc with h2' | ⟨e2', hbc⟩
        · exact Or.inl (e2 ▸ h2')
        · refine Or.inr ⟨e2.trans e2', ?_⟩
          rcases hab with h3 | ⟨e3, hab⟩
          · rcases hbc with h3' | ⟨e3', -⟩
            · exact Or.inl (lt_trans h3 h3')
            · exact Or.inl (e3' ▸ h3)
          · rcases hbc with h3' | ⟨e3', hbc⟩
            · exact Or.inl (e3 ▸ h3')
            · exact Or.inr ⟨e3.trans e3', whichLt_trans _ _ _ hab hbc⟩

lemma connLtP_irrefl (a : ConnT) : ¬ connLtP a a := by
  unfold connLtP
  rintro (h | ⟨-, h | ⟨-, h | ⟨-, h⟩⟩⟩)
  · exact lt_irrefl _ h
  · rw [whichLt_irrefl] at h
    cases h
  · exact lt_irrefl _ h
  · rw [whichLt_irrefl] at h
    cases h

lemma connLtP_asymm {a b : ConnT} (h : connLtP a b) : ¬ connLtP b a :=
  fun h' => connLtP_irrefl a (connLtP_trans h h')

lemma connLtP_connect {a b : ConnT} (h1 : ¬ connLtP a b) (h2 : ¬ connLtP b a) :
    a = b := by
  unfold connLtP at h1 h2
  push_neg at h1 h2
  rcases lt_trichotomy a.fromEnd.lane_id b.fromEnd.lane_id with hlt | heq | hgt
  · exact absurd hlt h1.1
  · replace h1 := h1.2 heq
    replace h2 := h2.2 heq.symm
    have e2 : a.fromEnd.which = b.fromEnd.which := by
      refine whichLt_connect _ _ ?_ ?_
      · cases hv : whichLt a.fromEnd.which b.fromEnd.which
        · rfl
        · exact absurd hv h1.1
      · cases hv : whichLt b.fromEnd.which a.fromEnd.which
        · rfl
        · exact absurd hv h2.1
    replace h1 := h1.2 e2
    replace h2 := h2.2 e2.symm
    rcases lt_trichotomy a.toEnd.lane_id b.toEnd.lane_id with hlt3 | heq3 | hgt3
    · exact absurd hlt3 h1.1
    · replace h1 := h1.2 heq3
      replace h2 := h2.2 heq3.symm
      have e4 : a.toEnd.which = b.toEnd.which := by
        refine whichLt_connect _ _ ?_ ?_
        · cases hv : whichLt a.toEnd.which b.toEnd.which
          · rfl
          · exact absurd hv h1
        · cases hv : whichLt b.toEnd.which a.toEnd.which
          · rfl
          · exact absurd hv h2
      obtain ⟨⟨af1, af2⟩, ⟨at1, at2⟩⟩ := a
      obtain ⟨⟨bf1, bf2⟩, ⟨bt1, bt2⟩⟩ := b
      dsimp only at heq e2 heq3 e4
      rw [heq, e2, heq3, e4]
    · exact absurd hgt3 h2.1
  · exact absurd hgt h2.1

lemma connLt_false_iff {a b : ConnT} : connLt a b = false ↔ ¬ connLtP a b := by
  rw [← connLt_iff]
  cases h : connLt a b <;> simp

instance : DecidableRel connLe :=
  fun a b => inferInstanceAs (Decidable (connLt b a = false))

instance : IsTotal ConnT connLe where
  total a b := by
    cases hab : connLt b a with
    | false => exact Or.inl hab
    | true =>
      refine Or.inr (connLt_false_iff.mpr ?_)
      exact connLtP_asymm ((connLt_iff b a).mp hab)

instance : IsTrans ConnT connLe where
  trans a b c hab hbc := by
    refine connLt_false_iff.mpr ?_
    intro hPca
    by_cases hPab : connLtP a b
    · exact connLt_false_iff.mp hbc (connLtP_trans hPca hPab)
    · have : a = b := connLtP_connect hPab (connLt_false_iff.mp hab)
      exact connLt_false_iff.mp hbc (this ▸ hPca)

/-- Sort with the source comparator, then remove consecutive duplicates
(`std::unique` with full `Connection` equality). Since the comparator's
equivalence classes are singletons, any `std::sort` result coincides with
the insertion sort used here. -/
def dedupConnections (raw : List ConnT) : List ConnT :=
  (List.insertionSort connLe raw).destutter (· ≠ ·)

lemma chain'_zip {α : Type} {R S T : α → α → Prop} :
    ∀ {l : List α}, l.Chain' R → l.Chain' S →
      (∀ a b, R a b → S a b → T a b) → l.Chain' T := by
  intro l
  induction l with
  | nil => intro _ _ _; exact List.chain'_nil
  | cons a tail ih =>
    intro hR hS himp
    cases tail with
    | nil => exact List.chain'_singleton a
    | cons b t =>
      rw [List.chain'_cons] at hR hS ⊢
      exact ⟨himp _ _ hR.1 hS.1, ih hR.2 hS.2 himp⟩

lemma dedupConnections_pairwise (raw : List ConnT) :
    (dedupConnections raw).Pairwise (fun a b => connLt a b = true) := by
  have hsorted : List.Sorted connLe (List.insertionSort connLe raw) :=
    List.sorted_insertionSort connLe raw
  have hsub : List.Sublist (dedupConnections raw) (List.insertionSort connLe raw) :=
    List.destutter_sublist _ _
  have hpair_le : (dedupConnections raw).Pairwise connLe := hsorted.sublist hsub
  have hchain_ne : (dedupConnections raw).Chain' (fun a b => a ≠ b) :=
    List.destutter_is_chain' _ _
  have hchain_lt : (dedupConnections raw).Chain' (fun a b => connLt a b = true) := by
    refine chain'_zip hpair_le.chain' hchain_ne ?_
    intro a b hle hne
    cases hv : connLt a b with
    | true => rfl
    | false =>
      exact absurd (connLtP_connect (connLt_false_iff.mp hv) (connLt_false_iff.mp hle)) hne
  exact (@List.chain'_iff_pairwise ConnT (fun a b => connLt a b = true)
    ⟨fun a b c hab hbc =>
      (connLt_iff a c).mpr (connLtP_trans ((connLt_iff a b).mp hab) ((connLt_iff b c).mp hbc))⟩
    _).mp hchain_lt

/-- Phase E of the constructor, per lane: predecessors first (edge from
the peer end to this lane's start), then successors (edge from this
lane's finish to the peer end), concatenated over the lane iteration. -/
def rawConnections (lanes : List LaneT) : List ConnT :=
  (lanes.map (fun lane =>
    lane.predecessors.map (fun p => ⟨p.2, ⟨lane.id, .start⟩⟩) ++
    lane.successors.map (fun p => ⟨⟨lane.id, .finish⟩, p.2⟩))).flatten

/-- Lane table for scenario S6: lanes l1 and l2 with empty maps. -/
def s6Lanes : LaneMap :=
  [("l1", ⟨"l1", [], [], none, none, [], []⟩),
   ("l2", ⟨"l2", [], [], none, none, [], []⟩)]

/-- Two branch points that both pair (l1, finish) on side a with
(l2, start) on side b. -/
def s6Bps : List (String × List GPKGBranchPointLaneT) :=
  [("bp1", [⟨"l1", "a", "finish"⟩, ⟨"l2", "b", "start"⟩]),
   ("bp2", [⟨"l1", "a", "finish"⟩, ⟨"l2", "b", "start"⟩])]

/-- The lane table after the branch-point phase on the S6 input. -/
def s6State : LaneMap := (phaseB s6Lanes s6Bps).toOption.getD []

/-- Claim C2: the exposed connection list is strictly sorted by the
lexicographic (from.lane_id, from.end, to.lane_id, to.end) comparator —
hence free of duplicate 4-tuples — for every raw connection collection;
and on the S6 input (two branch points both pairing (l1, Finish) with
(l2, Start)) the pipeline exposes exactly one Connection
{(l1, Finish), (l2, Start)}. -/
theorem connections_strictly_sorted_dedup (raw : List ConnT) :
    (dedupConnections raw).Pairwise (fun a b => connLt a b = true) ∧
      phaseB s6Lanes s6Bps = .ok s6State ∧
      dedupConnections (rawConnections (s6State.map Prod.snd))
        = [⟨⟨"l1", .finish⟩, ⟨"l2", .start⟩⟩] := by
  refine ⟨dedupConnections_pairwise raw, ?_, ?_⟩
  · rfl
  · rfl

/-! ## Association-list facts used to characterize the branch-point maps -/

lemma lookupAssoc_eq_none_iff {β : Type} (xs : List (String × β)) (k : String) :
    lookupAssoc xs k = none ↔ k ∉ xs.map Prod.fst := by
  induction xs with
  | nil => simp [lookupAssoc]
  | cons p rest ih =>
    obtain ⟨k', b⟩ := p
    by_cases hk : k = k'
    · subst hk
      simp [lookupAssoc]
    · simp [lookupAssoc, hk, ih]

lemma lookupAssoc_isSome_iff_mem {β : Type} (xs : List (String × β)) (k : String) :
    (lookupAssoc xs k).isSome = true ↔ k ∈ xs.map Prod.fst := by
  cases hv : lookupAssoc xs k with
  | none =>
    simp only [Option.isSome_none]
    constructor
    · intro h; cases h
    · intro hmem
      exact absurd ((lookupAssoc_eq_none_iff xs k).mp hv) (not_not_intro hmem)
  | some b =>
    simp only [Option.isSome_some, true_iff]
    by_contra hmem
    rw [(lookupAssoc_eq_none_iff xs k).mpr hmem] at hv
    cases hv

lemma mem_of_lookupAssoc {β : Type} {xs : List (String × β)} {k : String} {b : β}
    (h : lookupAssoc xs k = some b) : (k, b) ∈ xs := by
  induction xs with
  | nil => cases h
  | cons p rest ih =>
    obtain ⟨k', b'⟩ := p
    by_cases hk : k = k'
    · subst hk
      rw [lookupAssoc, if_pos rfl] at h
      cases h
      exact List.mem_cons_self _ _
    · rw [lookupAssoc, if_neg hk] at h
      exact List.mem_cons_of_mem _ (ih h)

lemma lookupAssoc_of_mem_nodup {β : Type} {xs : List (String × β)} {k : String} {b : β}
    (hnd : (xs.map Prod.fst).Nodup) (hmem : (k, b) ∈ xs) : lookupAssoc xs k = some b := by
  induction xs with
  | nil => cases hmem
  | cons p rest ih =>
    obtain ⟨k', b'⟩ := p
    rw [List.map_cons, List.nodup_cons] at hnd
    rcases List.mem_cons.mp hmem with hEq | hmem'
    · cases hEq
      rw [lookupAssoc, if_pos rfl]
    · have hkne : k ≠ k' := by
        intro hk
        subst hk
        exact hnd.1 (List.mem_map.mpr ⟨(k, b), hmem', rfl⟩)
      rw [lookupAssoc, if_neg hkne]
      exact ih hnd.2 hmem'

lemma lookupAssoc_append_single {β : Type} (xs : List (String × β)) (k y : String) (v : β) :
    lookupAssoc (xs ++ [(k, v)]) y =
      match lookupAssoc xs y with
      | some b => some b
      | none => if y = k then some v else none := by
  induction xs with
  | nil => simp [lookupAssoc]
  | cons p rest ih =>
    obtain ⟨k', b'⟩ := p
    by_cases hk : y = k'
    · subst hk
      simp [lookupAssoc]
    · simp only [List.cons_append, lookupAssoc, if_neg hk]
      exact ih

lemma lookup_emplaceAssoc_self {β : Type} {xs : List (String × β)} {k : String} (v : β)
    (h : lookupAssoc xs k = none) :
    lookupAssoc (emplaceAssoc xs k v) k = some v := by
  unfold emplaceAssoc
  rw [h]
  simp only [Option.isSome_none, Bool.false_eq_true, if_false]
  rw [lookupAssoc_append_single, h, if_pos rfl]

lemma lookup_emplaceAssoc_present {β : Type} {xs : List (String × β)} {k : String} (v : β)
    (h : (lookupAssoc xs k).isSome = true) : emplaceAssoc xs k v = xs := by
  unfold emplaceAssoc
  rw [if_pos h]

lemma lookup_emplaceAssoc_ne {β : Type} {xs : List (String × β)} {k y : String} (v : β)
    (h : y ≠ k) : lookupAssoc (emplaceAssoc xs k v) y = lookupAssoc xs y := by
  unfold emplaceAssoc
  split
  · rfl
  · rw [lookupAssoc_append_single, if_neg h]
    cases lookupAssoc xs y <;> rfl

lemma nodupKeys_emplaceAssoc {β : Type} {xs : List (String × β)} {k : String} {v : β}
    (hnd : (xs.map Prod.fst).Nodup) : ((emplaceAssoc xs k v).map Prod.fst).Nodup := by
  unfold emplaceAssoc
  split
  · exact hnd
  · next habs =>
    rw [List.map_append]
    refine List.Nodup.append hnd (by simp) ?_
    intro a ha hmem
    rw [List.map_singleton, List.mem_singleton] at hmem
    subst hmem
    have hnone : lookupAssoc xs a = none := by
      cases hv : lookupAssoc xs a
      · rfl
      · rw [hv] at habs; simp at habs
    exact absurd ha ((lookupAssoc_eq_none_iff xs a).mp hnone)

/-! ## Effect of one insertion on the lane table -/

/-- The predecessor or successor map of a lane, selected by a flag. -/
def edgeMapOf (l : LaneT) (m : Bool) : List (String × LaneEndT) :=
  if m then l.predecessors else l.successors

/-- Value stored for peer `k` in the selected map of lane `x`. -/
def edgeLookup (st : LaneMap) (x : String) (m : Bool) (k : String) : Option LaneEndT :=
  match lookupAssoc st x with
  | none => none
  | some l => lookupAssoc (edgeMapOf l m) k

/-- Whether an insertion targets lane `x`, map `m`, key `k`; if so its
value. -/
def matchVal (x : String) (m : Bool) (k : String) (i : Ins) : Option LaneEndT :=
  if i.target = x ∧ i.toPred = m ∧ i.key = k then some i.val else none

lemma edgeMapOf_applyEdge (i : Ins) (l : LaneT) (m : Bool) :
    edgeMapOf (applyEdge i l) m =
      if i.toPred = m then emplaceAssoc (edgeMapOf l m) i.key i.val else edgeMapOf l m := by
  cases hip : i.toPred <;> cases hm : m <;>
    simp [applyEdge, edgeMapOf, hip, hm]

lemma lookup_applyInsT (st : LaneMap) (i : Ins) (x : String) :
    lookupAssoc (applyInsT st i) x =
      if x = i.target then (lookupAssoc st x).map (applyEdge i) else lookupAssoc st x := by
  unfold applyInsT
  rw [lookup_updateAssoc]
  split
  · next h => rw [h]
  · rfl

lemma keys_applyInsT (st : LaneMap) (i : Ins) :
    (applyInsT st i).map Prod.fst = st.map Prod.fst :=
  keys_updateAssoc st i.target (applyEdge i)

lemma keys_applyAllT (st : LaneMap) :
    ∀ S : List Ins, (applyAllT st S).map Prod.fst = st.map Prod.fst := by
  intro S
  induction S generalizing st with
  | nil => rfl
  | cons i rest ih =>
    show (applyAllT (applyInsT st i) rest).map Prod.fst = st.map Prod.fst
    rw [ih (applyInsT st i), keys_applyInsT]

lemma present_applyInsT (st : LaneMap) (i : Ins) (x : String) :
    (lookupAssoc (applyInsT st i) x).isSome = (lookupAssoc st x).isSome := by
  rw [lookup_applyInsT]
  split
  · cases lookupAssoc st x <;> rfl
  · rfl

lemma edge_applyInsT_other {st : LaneMap} {i : Ins} {x : String} {m : Bool} {k : String}
    (h : ¬ (i.target = x ∧ i.toPred = m ∧ i.key = k)) :
    edgeLookup (applyInsT st i) x m k = edgeLookup st x m k := by
  unfold edgeLookup
  rw [lookup_applyInsT]
  by_cases hx : x = i.target
  · rw [if_pos hx]
    cases hl : lookupAssoc st x with
    | none => rfl
    | some l =>
      simp only [Option.map_some']
      rw [edgeMapOf_applyEdge]
      by_cases hm : i.toPred = m
      · rw [if_pos hm]
        have hkne : k ≠ i.key := by
          intro hk
          exact h ⟨hx.symm, hm, hk.symm⟩
        rw [lookup_emplaceAssoc_ne _ hkne]
      · rw [if_neg hm]
  · rw [if_neg hx]

lemma edge_applyInsT_match_none {st : LaneMap} {i : Ins} {x : String} {m : Bool} {k : String}
    (h1 : i.target = x) (h2 : i.toPred = m) (h3 : i.key = k)
    (hx : (lookupAssoc st x).isSome = true)
    (hnone : edgeLookup st x m k = none) :
    edgeLookup (applyInsT st i) x m k = some i.val := by
  subst h1 h2 h3
  unfold edgeLookup at hnone ⊢
  rw [lookup_applyInsT, if_pos rfl]
  cases hl : lookupAssoc st i.target with
  | none => rw [hl] at hx; cases hx
  | some l =>
    rw [hl] at hnone
    simp only [Option.map_some']
    rw [edgeMapOf_applyEdge, if_pos rfl]
    exact lookup_emplaceAssoc_self _ hnone

lemma edge_applyInsT_match_some {st : LaneMap} {i : Ins} {x : String} {m : Bool} {k : String}
    {v : LaneEndT} (h1 : i.target = x) (h2 : i.toPred = m) (h3 : i.key = k)
    (hsome : edgeLookup st x m k = some v) :
    edgeLookup (applyInsT st i) x m k = some v := by
  subst h1 h2 h3
  unfold edgeLookup at hsome ⊢
  rw [lookup_applyInsT, if_pos rfl]
  cases hl : lookupAssoc st i.target with
  | none => rw [hl] at hsome; cases hsome
  | some l =>
    rw [hl] at hsome
    have hsome' : lookupAssoc (edgeMapOf l i.toPred) i.key = some v := hsome
    simp only [Option.map_some']
    rw [edgeMapOf_applyEdge, if_pos rfl]
    rw [lookup_emplaceAssoc_present _ (by rw [hsome']; rfl)]
    exact hsome'

/-- Characterization of the edge maps after a run of insertions: starting
from an empty cell, the stored value is the value of the first matching
insertion; a stored value is never overwritten. -/
lemma edge_applyAllT (x : String) (m : Bool) (k : String) :
    ∀ (S : List Ins) (st : LaneMap), (lookupAssoc st x).isSome = true →
      (edgeLookup st x m k = none →
        edgeLookup (applyAllT st S) x m k = (S.filterMap (matchVal x m k)).head?) ∧
      (∀ v, edgeLookup st x m k = some v →
        edgeLookup (applyAllT st S) x m k = some v) := by
  intro S
  induction S with
  | nil => intro st _; exact ⟨fun h => h, fun v h => h⟩
  | cons i rest ih =>
    intro st hp
    have hstep : applyAllT st (i :: rest) = applyAllT (applyInsT st i) rest := rfl
    have hp' : (lookupAssoc (applyInsT st i) x).isSome = true := by
      rw [present_applyInsT]; exact hp
    by_cases hmatch : i.target = x ∧ i.toPred = m ∧ i.key = k
    · obtain ⟨h1, h2, h3⟩ := hmatch
      have hfm : matchVal x m k i = some i.val := by
        unfold matchVal
        rw [if_pos ⟨h1, h2, h3⟩]
      constructor
      · intro hnone
        rw [hstep, (ih (applyInsT st i) hp').2 i.val
          (edge_applyInsT_match_none h1 h2 h3 hp hnone)]
        rw [List.filterMap_cons_some hfm]
        rfl
      · intro v hsome
        rw [hstep]
        exact (ih (applyInsT st i) hp').2 v (edge_applyInsT_match_some h1 h2 h3 hsome)
    · have hfm : matchVal x m k i = none := by
        unfold matchVal
        rw [if_neg hmatch]
      constructor
      · intro hnone
        rw [hstep, (ih (applyInsT st i) hp').1 (by rw [edge_applyInsT_other hmatch]; exact hnone)]
        rw [List.filterMap_cons_none hfm]
      · intro v hsome
        rw [hstep]
        exact (ih (applyInsT st i) hp').2 v (by rw [edge_applyInsT_other hmatch]; exact hsome)

lemma applyAllE_cons (st : LaneMap) (i : Ins) (rest : List Ins) :
    applyAllE st (i :: rest) =
      match applyInsE st i with
      | .error e => .error e
      | .ok st1 => applyAllE st1 rest := rfl

lemma applyAllE_ok {S : List Ins} :
    ∀ {st st' : LaneMap}, applyAllE st S = .ok st' →
      st' = applyAllT st S ∧ ∀ i ∈ S, (lookupAssoc st i.target).isSome = true := by
  induction S with
  | nil =>
    intro st st' h
    cases h
    exact ⟨rfl, by simp⟩
  | cons i rest ih =>
    intro st st' h
    rw [applyAllE_cons] at h
    cases hie : applyInsE st i with
    | error e => rw [hie] at h; cases h
    | ok st1 =>
      rw [hie] at h
      unfold applyInsE at hie
      split at hie
      · next hpres =>
        cases hie
        obtain ⟨hst, hmem⟩ := ih h
        refine ⟨hst, ?_⟩
        intro i' hi'
        rcases List.mem_cons.mp hi' with hEq | hmem'
        · subst hEq; exact hpres
        · rw [← present_applyInsT st i i'.target]
          exact hmem i' hmem'
      · cases hie

lemma applyAllE_append :
    ∀ (S1 S2 : List Ins) (st : LaneMap),
      applyAllE st (S1 ++ S2) =
        match applyAllE st S1 with
        | .error e => .error e
        | .ok st1 => applyAllE st1 S2 := by
  intro S1
  induction S1 with
  | nil => intro S2 st; rfl
  | cons i rest ih =>
    intro S2 st
    rw [List.cons_append, applyAllE_cons, applyAllE_cons]
    cases applyInsE st i with
    | error e => rfl
    | ok st1 => exact ih S2 st1

lemma applyCross_ok {la : GPKGBranchPointLaneT} :
    ∀ {lbs : List GPKGBranchPointLaneT} {st st' : LaneMap},
      applyCross st la lbs = .ok st' →
      ∃ S, insOfCross la lbs = .ok S ∧ applyAllE st S = .ok st' := by
  intro lbs
  induction lbs with
  | nil =>
    intro st st' h
    cases h
    exact ⟨[], rfl, rfl⟩
  | cons lb rest ih =>
    intro st st' h
    rw [show applyCross st la (lb :: rest) =
        (match applyPair st la lb with
          | .error e => .error e
          | .ok st1 => applyCross st1 la rest) from rfl] at h
    cases hp : applyPair st la lb with
    | error e => rw [hp] at h; cases h
    | ok st1 =>
      rw [hp] at h
      unfold applyPair at hp
      cases hip : insOfPair la lb with
      | error e => rw [hip] at hp; cases hp
      | ok is =>
        rw [hip] at hp
        have hp' : applyAllE st is = .ok st1 := hp
        obtain ⟨S2, hS2, happ2⟩ := ih h
        refine ⟨is ++ S2, ?_, ?_⟩
        · rw [show insOfCross la (lb :: rest) =
              (match insOfPair la lb with
                | .error e => .error e
                | .ok is =>
                  match insOfCross la rest with
                  | .error e => .error e
                  | .ok more => .ok (is ++ more)) from rfl, hip, hS2]
        · rw [applyAllE_append, hp']
          exact happ2

lemma applySideA_ok {side_b : List GPKGBranchPointLaneT} :
    ∀ {las : List GPKGBranchPointLaneT} {st st' : LaneMap},
      applySideA st side_b las = .ok st' →
      ∃ S, insOfSideA side_b las = .ok S ∧ applyAllE st S = .ok st' := by
  intro las
  induction las with
  | nil =>
    intro st st' h
    cases h
    exact ⟨[], rfl, rfl⟩
  | cons la rest ih =>
    intro st st' h
    rw [show applySideA st side_b (la :: rest) =
        (match applyCross st la side_b with
          | .error e => .error e
          | .ok st1 => applySideA st1 side_b rest) from rfl] at h
    cases hp : applyCross st la side_b with
    | error e => rw [hp] at h; cases h
    | ok st1 =>
      rw [hp] at h
      obtain ⟨S1, hS1, happ1⟩ := applyCross_ok hp
      obtain ⟨S2, hS2, happ2⟩ := ih h
      refine ⟨S1 ++ S2, ?_, ?_⟩
      · rw [show insOfSideA side_b (la :: rest) =
            (match insOfCross la side_b with
              | .error e => .error e
              | .ok is =>
                match insOfSideA side_b rest with
                | .error e => .error e
                | .ok more => .ok (is ++ more)) from rfl, hS1, hS2]
      · rw [applyAllE_append, happ1]
        exact happ2

lemma phaseB_ok_stream :
    ∀ {bps : List (String × List GPKGBranchPointLaneT)} {st st' : LaneMap},
      phaseB st bps = .ok st' →
      ∃ S, insStream bps = .ok S ∧ applyAllE st S = .ok st' := by
  intro bps
  induction bps with
  | nil =>
    intro st st' h
    cases h
    exact ⟨[], rfl, rfl⟩
  | cons bp rest ih =>
    intro st st' h
    rw [show phaseB st (bp :: rest) =
        (match applyBranchPoint st bp.2 with
          | .error e => .error e
          | .ok st1 => phaseB st1 rest) from rfl] at h
    cases hp : applyBranchPoint st bp.2 with
    | error e => rw [hp] at h; cases h
    | ok st1 =>
      rw [hp] at h
      obtain ⟨S1, hS1, happ1⟩ := applySideA_ok hp
      obtain ⟨S2, hS2, happ2⟩ := ih h
      refine ⟨S1 ++ S2, ?_, ?_⟩
      · rw [show insStream (bp :: rest) =
            (match insOfBp bp.2 with
              | .error e => .error e
              | .ok is =>
                match insStream rest with
                | .error e => .error e
                | .ok more => .ok (is ++ more)) from rfl]
        rw [show insOfBp bp.2 = insOfSideA (bp.2.filter (fun b => b.side = "b"))
            (bp.2.filter (fun b => b.side = "a")) from rfl, hS1, hS2]
      · rw [applyAllE_append, happ1]
        exact happ2

lemma mem_updateAssoc {β : Type} {xs : List (String × β)} {x : String} {f : β → β}
    {e : String × β} (h : e ∈ updateAssoc xs x f) :
    e ∈ xs ∨ ∃ e' ∈ xs, e = (e'.1, f e'.2) := by
  induction xs with
  | nil => cases h
  | cons p rest ih =>
    obtain ⟨k, b⟩ := p
    by_cases hk : k = x
    · rw [updateAssoc, if_pos hk] at h
      rcases List.mem_cons.mp h with hEq | hmem
      · exact Or.inr ⟨(k, b), List.mem_cons_self _ _, hEq⟩
      · exact Or.inl (List.mem_cons_of_mem _ hmem)
    · rw [updateAssoc, if_neg hk] at h
      rcases List.mem_cons.mp h with hEq | hmem
      · exact Or.inl (hEq ▸ List.mem_cons_self _ _)
      · rcases ih hmem with h' | ⟨e', he', hEq'⟩
        · exact Or.inl (List.mem_cons_of_mem _ h')
        · exact Or.inr ⟨e', List.mem_cons_of_mem _ he', hEq'⟩

/-- Per-lane invariant: both edge maps have duplicate-free keys. -/
def laneEdgesNodup (st : LaneMap) : Prop :=
  ∀ e ∈ st, (e.2.predecessors.map Prod.fst).Nodup ∧ (e.2.successors.map Prod.fst).Nodup

lemma laneEdgesNodup_applyInsT {st : LaneMap} {i : Ins} (h : laneEdgesNodup st) :
    laneEdgesNodup (applyInsT st i) := by
  intro e he
  rcases mem_updateAssoc he with he' | ⟨e', he', hEq⟩
  · exact h e he'
  · obtain ⟨hnp, hns⟩ := h e' he'
    subst hEq
    cases hip : i.toPred
    · have hae : applyEdge i e'.2 =
          { e'.2 with successors := emplaceAssoc e'.2.successors i.key i.val } := by
        unfold applyEdge
        rw [hip, if_neg Bool.false_ne_true]
      show ((applyEdge i e'.2).predecessors.map Prod.fst).Nodup ∧
        ((applyEdge i e'.2).successors.map Prod.fst).Nodup
      rw [hae]
      exact ⟨hnp, nodupKeys_emplaceAssoc hns⟩
    · have hae : applyEdge i e'.2 =
          { e'.2 with predecessors := emplaceAssoc e'.2.predecessors i.key i.val } := by
        unfold applyEdge
        rw [hip, if_pos rfl]
      show ((applyEdge i e'.2).predecessors.map Prod.fst).Nodup ∧
        ((applyEdge i e'.2).successors.map Prod.fst).Nodup
      rw [hae]
      exact ⟨nodupKeys_emplaceAssoc hnp, hns⟩

lemma laneEdgesNodup_applyAllT {st : LaneMap} {S : List Ins} (h : laneEdgesNodup st) :
    laneEdgesNodup (applyAllT st S) := by
  induction S generalizing st with
  | nil => exact h
  | cons i rest ih =>
    show laneEdgesNodup (applyAllT (applyInsT st i) rest)
    exact ih (laneEdgesNodup_applyInsT h)

lemma mem_of_head? {α : Type} {l : List α} {a : α} (h : l.head? = some a) : a ∈ l := by
  cases l with
  | nil => cases h
  | cons b t =>
    cases h
    exact List.mem_cons_self _ _

/-- Shape of the two insertions generated by one pair. -/
lemma insOfPair_ok {la lb : GPKGBranchPointLaneT} {is : List Ins}
    (h : insOfPair la lb = .ok is) :
    ∃ ea eb, strToLaneEndWhich la.lane_end = .ok ea ∧ strToLaneEndWhich lb.lane_end = .ok eb ∧
      is = [⟨la.lane_id, whichIsStart ea, lb.lane_id, ⟨lb.lane_id, eb⟩⟩,
            ⟨lb.lane_id, whichIsStart eb, la.lane_id, ⟨la.lane_id, ea⟩⟩] := by
  unfold insOfPair at h
  cases h1 : strToLaneEndWhich la.lane_end with
  | error e => rw [h1] at h; cases h
  | ok ea =>
    rw [h1] at h
    cases h2 : strToLaneEndWhich lb.lane_end with
    | error e => rw [h2] at h; cases h
    | ok eb =>
      rw [h2] at h
      cases h
      exact ⟨ea, eb, rfl, rfl, rfl⟩

lemma insOfCross_mem {la : GPKGBranchPointLaneT} :
    ∀ {lbs : List GPKGBranchPointLaneT} {S : List Ins}, insOfCross la lbs = .ok S →
      ∀ i : Ins, i ∈ S ↔ ∃ lb ∈ lbs, ∃ is, insOfPair la lb = .ok is ∧ i ∈ is := by
  intro lbs
  induction lbs with
  | nil =>
    intro S h i
    cases h
    simp
  | cons lb rest ih =>
    intro S h i
    rw [show insOfCross la (lb :: rest) =
        (match insOfPair la lb with
          | .error e => .error e
          | .ok is =>
            match insOfCross la rest with
            | .error e => .error e
            | .ok more => .ok (is ++ more)) from rfl] at h
    cases hip : insOfPair la lb with
    | error e => rw [hip] at h; cases h
    | ok is =>
      rw [hip] at h
      cases hic : insOfCross la rest with
      | error e => rw [hic] at h; cases h
      | ok more =>
        rw [hic] at h
        cases h
        constructor
        · intro hmem
          rcases List.mem_append.mp hmem with hm | hm
          · exact ⟨lb, List.mem_cons_self _ _, is, hip, hm⟩
          · obtain ⟨lb', hlb', is', hip', hm'⟩ := (ih hic i).mp hm
            exact ⟨lb', List.mem_cons_of_mem _ hlb', is', hip', hm'⟩
        · rintro ⟨lb', hlb', is', hip', hm'⟩
          rcases List.mem_cons.mp hlb' with hEq | hlb''
          · subst hEq
            rw [hip] at hip'
            cases hip'
            exact List.mem_append.mpr (Or.inl hm')
          · exact List.mem_append.mpr (Or.inr ((ih hic i).mpr ⟨lb', hlb'', is', hip', hm'⟩))

lemma insOfSideA_mem {side_b : List GPKGBranchPointLaneT} :
    ∀ {las : List GPKGBranchPointLaneT} {S : List Ins}, insOfSideA side_b las = .ok S →
      ∀ i : Ins, i ∈ S ↔ ∃ la ∈ las, ∃ Sc, insOfCross la side_b = .ok Sc ∧ i ∈ Sc := by
  intro las
  induction las with
  | nil =>
    intro S h i
    cases h
    simp
  | cons la rest ih =>
    intro S h i
    rw [show insOfSideA side_b (la :: rest) =
        (match insOfCross la side_b with
          | .error e => .error e
          | .ok is =>
            match insOfSideA side_b rest with
            | .error e => .error e
            | .ok more => .ok (is ++ more)) from rfl] at h
    cases hic : insOfCross la side_b with
    | error e => rw [hic] at h; cases h
    | ok is =>
      rw [hic] at h
      cases his : insOfSideA side_b rest with
      | error e => rw [his] at h; cases h
      | ok more =>
        rw [his] at h
        cases h
        constructor
        · intro hmem
          rcases List.mem_append.mp hmem with hm | hm
          · exact ⟨la, List.mem_cons_self _ _, is, hic, hm⟩
          · obtain ⟨la', hla', Sc', hic', hm'⟩ := (ih his i).mp hm
            exact ⟨la', List.mem_cons_of_mem _ hla', Sc', hic', hm'⟩
        · rintro ⟨la', hla', Sc', hic', hm'⟩
          rcases List.mem_cons.mp hla' with hEq | hla''
          · subst hEq
            rw [hic] at hic'
            cases hic'
            exact List.mem_append.mpr (Or.inl hm')
          · exact List.mem_append.mpr (Or.inr ((ih his i).mpr ⟨la', hla'', Sc', hic', hm'⟩))

lemma insStream_mem :
    ∀ {bps : List (String × List GPKGBranchPointLaneT)} {S : List Ins},
      insStream bps = .ok S →
      ∀ i : Ins, i ∈ S ↔ ∃ bp ∈ bps, ∃ Sb, insOfBp bp.2 = .ok Sb ∧ i ∈ Sb := by
  intro bps
  induction bps with
  | nil =>
    intro S h i
    cases h
    simp
  | cons bp rest ih =>
    intro S h i
    rw [show insStream (bp :: rest) =
        (match insOfBp bp.2 with
          | .error e => .error e
          | .ok is =>
            match insStream rest with
            | .error e => .error e
            | .ok more => .ok (is ++ more)) from rfl] at h
    cases hib : insOfBp bp.2 with
    | error e => rw [hib] at h; cases h
    | ok is =>
      rw [hib] at h
      cases his : insStream rest with
      | error e => rw [his] at h; cases h
      | ok more =>
        rw [his] at h
        cases h
        constructor
        · intro hmem
          rcases List.mem_append.mp hmem with hm | hm
          · exact ⟨bp, List.mem_cons_self _ _, is, hib, hm⟩
          · obtain ⟨bp', hbp', Sb', hib', hm'⟩ := (ih his i).mp hm
            exact ⟨bp', List.mem_cons_of_mem _ hbp', Sb', hib', hm'⟩
        · rintro ⟨bp', hbp', Sb', hib', hm'⟩
          rcases List.mem_cons.mp hbp' with hEq | hbp''
          · subst hEq
            rw [hib] at hib'
            cases hib'
            exact List.mem_append.mpr (Or.inl hm')
          · exact List.mem_append.mpr (Or.inr ((ih his i).mpr ⟨bp', hbp'', Sb', hib', hm'⟩))

lemma insOfSideA_ok_each {side_b : List GPKGBranchPointLaneT} :
    ∀ {las : List GPKGBranchPointLaneT} {S : List Ins}, insOfSideA side_b las = .ok S →
      ∀ la ∈ las, ∃ Sc, insOfCross la side_b = .ok Sc := by
  intro las
  induction las with
  | nil => intro S _ la hla; cases hla
  | cons la0 rest ih =>
    intro S h la hla
    rw [show insOfSideA side_b (la0 :: rest) =
        (match insOfCross la0 side_b with
          | .error e => .error e
          | .ok is =>
            match insOfSideA side_b rest with
            | .error e => .error e
            | .ok more => .ok (is ++ more)) from rfl] at h
    cases hic : insOfCross la0 side_b with
    | error e => rw [hic] at h; cases h
    | ok is =>
      rw [hic] at h
      cases his : insOfSideA side_b rest with
      | error e => rw [his] at h; cases h
      | ok more =>
        rcases List.mem_cons.mp hla with hEq | hla'
        · subst hEq; exact ⟨is, hic⟩
        · exact ih his la hla'

lemma insStream_ok_each :
    ∀ {bps : List (String × List GPKGBranchPointLaneT)} {S : List Ins},
      insStream bps = .ok S → ∀ bp ∈ bps, ∃ Sb, insOfBp bp.2 = .ok Sb := by
  intro bps
  induction bps with
  | nil => intro S _ bp hbp; cases hbp
  | cons bp0 rest ih =>
    intro S h bp hbp
    rw [show insStream (bp0 :: rest) =
        (match insOfBp bp0.2 with
          | .error e => .error e
          | .ok is =>
            match insStream rest with
            | .error e => .error e
            | .ok more => .ok (is ++ more)) from rfl] at h
    cases hib : insOfBp bp0.2 with
    | error e => rw [hib] at h; cases h
    | ok is =>
      rw [hib] at h
      cases his : insStream rest with
      | error e => rw [his] at h; cases h
      | ok more =>
        rcases List.mem_cons.mp hbp with hEq | hbp'
        · subst hEq; exact ⟨is, hib⟩
        · exact ih his bp hbp'

/-- Membership in the insertion stream, resolved down to the generating
side-a/side-b pair. -/
lemma insStream_pairs {bps : List (String × List GPKGBranchPointLaneT)} {S : List Ins}
    (h : insStream bps = .ok S) (i : Ins) :
    i ∈ S ↔ ∃ bp ∈ bps, ∃ la ∈ bp.2.filter (fun b => b.side = "a"),
      ∃ lb ∈ bp.2.filter (fun b => b.side = "b"),
      ∃ is, insOfPair la lb = .ok is ∧ i ∈ is := by
  rw [insStream_mem h i]
  constructor
  · rintro ⟨bp, hbp, Sb, hib, hiSb⟩
    obtain ⟨la, hla, Sc, hic, hiSc⟩ := (insOfSideA_mem hib i).mp hiSb
    obtain ⟨lb, hlb, is, hip, hiis⟩ := (insOfCross_mem hic i).mp hiSc
    exact ⟨bp, hbp, la, hla, lb, hlb, is, hip, hiis⟩
  · rintro ⟨bp, hbp, la, hla, lb, hlb, is, hip, hiis⟩
    obtain ⟨Sb, hib⟩ := insStream_ok_each h bp hbp
    obtain ⟨Sc, hic⟩ := insOfSideA_ok_each hib la hla
    refine ⟨bp, hbp, Sb, hib, ?_⟩
    refine (insOfSideA_mem hib i).mpr ⟨la, hla, Sc, hic, ?_⟩
    exact (insOfCross_mem hic i).mpr ⟨lb, hlb, is, hip, hiis⟩

lemma whichIsStart_eq_iff : ∀ (w : Which) (m : Bool),
    whichIsStart w = m ↔ w = (if m then Which.start else Which.finish) := by
  intro w m
  cases w <;> cases m <;> simp [whichIsStart]

/-- Any two insertions of the stream that aim at the same lane and peer
agree on the map side and on the stored lane end. This holds exactly when
all branch-point pairings linking the same two lanes use the same lane
ends. -/
def ConsistentStream (S : List Ins) : Prop :=
  ∀ i ∈ S, ∀ j ∈ S, i.target = j.target → i.key = j.key → i.toPred = j.toPred ∧ i.val = j.val

/-- Lane `v.lane_id` carries an edge back to `{a, w}` — in its
predecessors when `v.which = Start`, else in its successors. -/
def inverseEdgeHolds (st : LaneMap) (a : String) (v : LaneEndT) (w : Which) : Prop :=
  ∃ e' ∈ st, e'.1 = v.lane_id ∧
    (a, (⟨a, w⟩ : LaneEndT)) ∈ edgeMapOf e'.2 (whichIsStart v.which)

/-- The symmetry invariant exactly as claimed: every predecessor edge on
lane A pointing to `{B, e_B}` has an inverse on B pointing back to
`{A, Start}`, and every successor edge one pointing back to
`{A, Finish}`. -/
def symmetricClaim (st : LaneMap) : Prop :=
  ∀ e ∈ st,
    (∀ p ∈ e.2.predecessors, inverseEdgeHolds st e.1 p.2 Which.start) ∧
    (∀ p ∈ e.2.successors, inverseEdgeHolds st e.1 p.2 Which.finish)

instance (st : LaneMap) (a : String) (v : LaneEndT) (w : Which) :
    Decidable (inverseEdgeHolds st a v w) := by
  unfold inverseEdgeHolds
  infer_instance

instance (st : LaneMap) : Decidable (symmetricClaim st) := by
  unfold symmetricClaim
  infer_instance

/-- Claim C3 (amended): after the branch-point phase, the
predecessor/successor edges are symmetric for every accepted database in
which any two branch-point pairings linking the same pair of lanes assign
the same lane ends (`ConsistentStream`); with conflicting lane ends a
later colliding `emplace` can be dropped on one lane but applied on the
other, breaking symmetry (see the counterexample). -/
theorem phaseB_symmetric
    (bps : List (String × List GPKGBranchPointLaneT)) (st0 st' : LaneMap) (S : List Ins)
    (hkeys : (st0.map Prod.fst).Nodup)
    (hempty : ∀ e ∈ st0, e.2.predecessors = [] ∧ e.2.successors = [])
    (hok : phaseB st0 bps = .ok st')
    (hS : insStream bps = .ok S)
    (hcons : ConsistentStream S) :
    symmetricClaim st' := by
  obtain ⟨S', hS', happ⟩ := phaseB_ok_stream hok
  rw [hS] at hS'
  cases hS'
  obtain ⟨hst', hpres⟩ := applyAllE_ok happ
  have hkeys' : st'.map Prod.fst = st0.map Prod.fst := by
    rw [hst']
    exact keys_applyAllT st0 S
  have hnd' : (st'.map Prod.fst).Nodup := by rw [hkeys']; exact hkeys
  have hlanesnd : laneEdgesNodup st' := by
    rw [hst']
    refine laneEdgesNodup_applyAllT ?_
    intro e he
    rw [(hempty e he).1, (hempty e he).2]
    simp
  have hchar : ∀ x : String, x ∈ st0.map Prod.fst → ∀ (m : Bool) (k : String),
      edgeLookup st' x m k = (S.filterMap (matchVal x m k)).head? := by
    intro x hx m k
    have hp : (lookupAssoc st0 x).isSome = true := (lookupAssoc_isSome_iff_mem _ _).mpr hx
    have hnone : edgeLookup st0 x m k = none := by
      unfold edgeLookup
      cases hl : lookupAssoc st0 x with
      | none => rfl
      | some l =>
        show lookupAssoc (edgeMapOf l m) k = none
        have hle := hempty (x, l) (mem_of_lookupAssoc hl)
        cases m
        · show lookupAssoc l.successors k = none
          rw [hle.2]
          rfl
        · show lookupAssoc l.predecessors k = none
          rw [hle.1]
          rfl
    rw [hst']
    exact (edge_applyAllT x m k S st0 hp).1 hnone
  intro e he
  obtain ⟨x, lx⟩ := e
  have hx : x ∈ st0.map Prod.fst := by
    rw [← hkeys']
    exact List.mem_map.mpr ⟨(x, lx), he, rfl⟩
  have hcore : ∀ (m : Bool), ∀ p ∈ edgeMapOf lx m,
      inverseEdgeHolds st' x p.2 (if m then Which.start else Which.finish) := by
    intro m p hpmem
    obtain ⟨k, v⟩ := p
    have hlk : lookupAssoc st' x = some lx := lookupAssoc_of_mem_nodup hnd' he
    have hv : lookupAssoc (edgeMapOf lx m) k = some v := by
      refine lookupAssoc_of_mem_nodup ?_ hpmem
      have hnds := hlanesnd (x, lx) he
      cases m
      · exact hnds.2
      · exact hnds.1
    have helk : edgeLookup st' x m k = some v := by
      unfold edgeLookup
      rw [hlk]
      exact hv
    rw [hchar x hx m k] at helk
    have hvmem : v ∈ S.filterMap (matchVal x m k) := mem_of_head? helk
    obtain ⟨i, hiS, hima⟩ := List.mem_filterMap.mp hvmem
    have hi : i.target = x ∧ i.toPred = m ∧ i.key = k ∧ i.val = v := by
      unfold matchVal at hima
      split at hima
      · next hcond =>
        cases hima
        exact ⟨hcond.1, hcond.2.1, hcond.2.2, rfl⟩
      · cases hima
    obtain ⟨hit, hitp, hik, hival⟩ := hi
    obtain ⟨bp, hbp, la, hla, lb, hlb, is, hip, hiin⟩ := (insStream_pairs hS i).mp hiS
    obtain ⟨ea, eb, hea, heb, hisEq⟩ := insOfPair_ok hip
    subst hisEq
    have hsib : ∃ j ∈ S, j.target = v.lane_id ∧ j.toPred = whichIsStart v.which ∧
        j.key = x ∧ j.val = ⟨x, if m then Which.start else Which.finish⟩ := by
      rcases List.mem_cons.mp hiin with hEq | hiin2
      · subst hEq
        have hlax : la.lane_id = x := hit
        have heamp : whichIsStart ea = m := hitp
        have hvl : v.lane_id = lb.lane_id := by rw [← hival]
        have hvw : v.which = eb := by rw [← hival]
        refine ⟨⟨lb.lane_id, whichIsStart eb, la.lane_id, ⟨la.lane_id, ea⟩⟩, ?_, ?_, ?_, ?_, ?_⟩
        · refine (insStream_pairs hS _).mpr ⟨bp, hbp, la, hla, lb, hlb, _, hip, ?_⟩
          exact List.mem_cons_of_mem _ (List.mem_cons_self _ _)
        · show lb.lane_id = v.lane_id
          rw [hvl]
        · show whichIsStart eb = whichIsStart v.which
          rw [hvw]
        · exact hlax
        · show (⟨la.lane_id, ea⟩ : LaneEndT) = ⟨x, if m then Which.start else Which.finish⟩
          rw [hlax, (whichIsStart_eq_iff ea m).mp heamp]
      · rcases List.mem_cons.mp hiin2 with hEq | h0
        · subst hEq
          have hlbx : lb.lane_id = x := hit
          have hebm : whichIsStart eb = m := hitp
          have hvl : v.lane_id = la.lane_id := by rw [← hival]
          have hvw : v.which = ea := by rw [← hival]
          refine ⟨⟨la.lane_id, whichIsStart ea, lb.lane_id, ⟨lb.lane_id, eb⟩⟩, ?_, ?_, ?_, ?_, ?_⟩
          · refine (insStream_pairs hS _).mpr ⟨bp, hbp, la, hla, lb, hlb, _, hip, ?_⟩
            exact List.mem_cons_self _ _
          · show la.lane_id = v.lane_id
            rw [hvl]
          · show whichIsStart ea = whichIsStart v.which
            rw [hvw]
          · exact hlbx
          · show (⟨lb.lane_id, eb⟩ : LaneEndT) = ⟨x, if m then Which.start else Which.finish⟩
            rw [hlbx, (whichIsStart_eq_iff eb m).mp hebm]
        · cases h0
    obtain ⟨j, hjS, hjt, hjp, hjk, hjv⟩ := hsib
    have hBx : v.lane_id ∈ st0.map Prod.fst := by
      have hpj := hpres j hjS
      rw [hjt] at hpj
      exact (lookupAssoc_isSome_iff_mem _ _).mp hpj
    have hjmem : j.val ∈ S.filterMap (matchVal v.lane_id (whichIsStart v.which) x) :=
      List.mem_filterMap.mpr ⟨j, hjS, by unfold matchVal; rw [if_pos ⟨hjt, hjp, hjk⟩]⟩
    cases hfm : S.filterMap (matchVal v.lane_id (whichIsStart v.which) x) with
    | nil => rw [hfm] at hjmem; cases hjmem
    | cons w t =>
      have hwmem : w ∈ S.filterMap (matchVal v.lane_id (whichIsStart v.which) x) := by
        rw [hfm]
        exact List.mem_cons_self _ _
      obtain ⟨i2, hi2S, hi2m⟩ := List.mem_filterMap.mp hwmem
      have hi2 : i2.target = v.lane_id ∧ i2.toPred = whichIsStart v.which ∧
          i2.key = x ∧ i2.val = w := by
        unfold matchVal at hi2m
        split at hi2m
        · next hcond =>
          cases hi2m
          exact ⟨hcond.1, hcond.2.1, hcond.2.2, rfl⟩
        · cases hi2m
      have hcij := hcons i2 hi2S j hjS (by rw [hi2.1, hjt]) (by rw [hi2.2.2.1, hjk])
      have hwv : w = j.val := by
        rw [← hi2.2.2.2]
        exact hcij.2
      have hBlk : edgeLookup st' v.lane_id (whichIsStart v.which) x = some j.val := by
        rw [hchar v.lane_id hBx (whichIsStart v.which) x, hfm, hwv]
        rfl
      unfold edgeLookup at hBlk
      cases hBl : lookupAssoc st' v.lane_id with
      | none =>
        rw [hBl] at hBlk
        cases hBlk
      | some lB =>
        rw [hBl] at hBlk
        have hBlk' : lookupAssoc (edgeMapOf lB (whichIsStart v.which)) x = some j.val := hBlk
        refine ⟨(v.lane_id, lB), mem_of_lookupAssoc hBl, rfl, ?_⟩
        have hjm := mem_of_lookupAssoc hBlk'
        rw [hjv] at hjm
        exact hjm
  exact ⟨fun p hp => hcore true p hp, fun p hp => hcore false p hp⟩

instance (S : List Ins) : Decidable (ConsistentStream S) := by
  unfold ConsistentStream
  infer_instance

/-- Two lanes with empty edge maps, as phase A of the constructor builds
them. -/
def c3St0 : LaneMap :=
  [("la", ⟨"la", [], [], none, none, [], []⟩),
   ("lb", ⟨"lb", [], [], none, none, [], []⟩)]

/-- Two branch points linking the same pair of lanes with different lane
ends: bp1 pairs (la, start) with (lb, start), bp2 pairs (la, start) with
(lb, finish). -/
def c3Bps : List (String × List GPKGBranchPointLaneT) :=
  [("bp1", [⟨"la", "a", "start"⟩, ⟨"lb", "b", "start"⟩]),
   ("bp2", [⟨"la", "a", "start"⟩, ⟨"lb", "b", "finish"⟩])]

/-- The lane table produced by the branch-point phase on that input. -/
def c3State : LaneMap := (phaseB c3St0 c3Bps).toOption.getD []

/-- Claim C3 (counterexample): the database with branch points
(la,a,start)+(lb,b,start) and (la,a,start)+(lb,b,finish) is accepted by
construction, yet the resulting edges are not symmetric: lb carries the
successor edge (la, {la, Start}) whose inverse would have to be the entry
(lb, {lb, Finish}) in la's predecessors, but la's predecessors hold
(lb, {lb, Start}) from the first branch point — the second branch point's
colliding emplace on la was discarded while its insertion on lb was
applied. -/
theorem phaseB_symmetry_counterexample :
    phaseB c3St0 c3Bps = .ok c3State ∧ ¬ symmetricClaim c3State := by
  constructor
  · rfl
  · decide

/-- Two branch points repeating the identical pairing (la, finish) with
(lb, start): a consistent input. -/
def c3WitBps : List (String × List GPKGBranchPointLaneT) :=
  [("bp1", [⟨"la", "a", "finish"⟩, ⟨"lb", "b", "start"⟩]),
   ("bp2", [⟨"la", "a", "finish"⟩, ⟨"lb", "b", "start"⟩])]

/-- The lane table produced on the consistent input. -/
def c3WitState : LaneMap := (phaseB c3St0 c3WitBps).toOption.getD []

/-- The insertion stream of the consistent input. -/
def c3WitStream : List Ins := (insStream c3WitBps).toOption.getD []

/-- Witness for the amended C3 on the concrete consistent database (two
branch points repeating the same pairing). -/
theorem phaseB_symmetric_witness : symmetricClaim c3WitState :=
  phaseB_symmetric c3WitBps c3St0 c3WitState c3WitStream
    (by decide) (by decide) rfl rfl (by decide)

/-- Characterization of the edge maps after the whole branch-point phase:
each cell holds the value of the first matching insertion attempt of the
stream (or nothing when no insertion matched). -/
lemma phaseB_edge_char
    {bps : List (String × List GPKGBranchPointLaneT)} {st0 st' : LaneMap} {S : List Ins}
    (hempty : ∀ e ∈ st0, e.2.predecessors = [] ∧ e.2.successors = [])
    (hok : phaseB st0 bps = .ok st')
    (hS : insStream bps = .ok S)
    (x : String) (hx : x ∈ st0.map Prod.fst) (m : Bool) (k : String) :
    edgeLookup st' x m k = (S.filterMap (matchVal x m k)).head? := by
  obtain ⟨S', hS', happ⟩ := phaseB_ok_stream hok
  rw [hS] at hS'
  cases hS'
  obtain ⟨hst', -⟩ := applyAllE_ok happ
  have hp : (lookupAssoc st0 x).isSome = true := (lookupAssoc_isSome_iff_mem _ _).mpr hx
  have hnone : edgeLookup st0 x m k = none := by
    unfold edgeLookup
    cases hl : lookupAssoc st0 x with
    | none => rfl
    | some l =>
      show lookupAssoc (edgeMapOf l m) k = none
      have hle := hempty (x, l) (mem_of_lookupAssoc hl)
      cases m
      · show lookupAssoc l.successors k = none
        rw [hle.2]
        rfl
      · show lookupAssoc l.predecessors k = none
        rw [hle.1]
        rfl
  rw [hst']
  exact (edge_applyAllT x m k S st0 hp).1 hnone

/-- Claim C10: for every lane the predecessor and successor maps hold at
most one entry per peer lane id, and the entry stored under a peer is the
value of the first insertion attempted for that (lane, map, peer) — all
later insertions for that peer are discarded, as with map `emplace`. -/
theorem phaseB_emplace_first_wins
    (bps : List (String × List GPKGBranchPointLaneT)) (st0 st' : LaneMap) (S : List Ins)
    (hkeys : (st0.map Prod.fst).Nodup)
    (hempty : ∀ e ∈ st0, e.2.predecessors = [] ∧ e.2.successors = [])
    (hok : phaseB st0 bps = .ok st')
    (hS : insStream bps = .ok S) :
    ∀ e ∈ st',
      ((e.2.predecessors.map Prod.fst).Nodup ∧ (e.2.successors.map Prod.fst).Nodup) ∧
      ∀ (m : Bool) (k : String),
        lookupAssoc (edgeMapOf e.2 m) k = (S.filterMap (matchVal e.1 m k)).head? := by
  obtain ⟨S', hS', happ⟩ := phaseB_ok_stream hok
  rw [hS] at hS'
  cases hS'
  obtain ⟨hst', -⟩ := applyAllE_ok happ
  have hkeys' : st'.map Prod.fst = st0.map Prod.fst := by
    rw [hst']
    exact keys_applyAllT st0 S
  have hnd' : (st'.map Prod.fst).Nodup := by rw [hkeys']; exact hkeys
  have hlanesnd : laneEdgesNodup st' := by
    rw [hst']
    refine laneEdgesNodup_applyAllT ?_
    intro e he
    rw [(hempty e he).1, (hempty e he).2]
    simp
  intro e he
  refine ⟨hlanesnd e he, ?_⟩
  intro m k
  obtain ⟨x, lx⟩ := e
  have hlk : lookupAssoc st' x = some lx := lookupAssoc_of_mem_nodup hnd' he
  have hx : x ∈ st0.map Prod.fst := by
    rw [← hkeys']
    exact List.mem_map.mpr ⟨(x, lx), he, rfl⟩
  have hc := phaseB_edge_char hempty hok hS x hx m k
  unfold edgeLookup at hc
  rw [hlk] at hc
  exact hc

/-- One branch point whose side b pairs lane q's start and then lane q's
finish against lane p's start: the second insertion for peer q on lane p
collides and is discarded. -/
def c10Bps : List (String × List GPKGBranchPointLaneT) :=
  [("bp", [⟨"p", "a", "start"⟩, ⟨"q", "b", "start"⟩, ⟨"q", "b", "finish"⟩])]

/-- Lane table with lanes p and q and empty maps. -/
def c10St0 : LaneMap :=
  [("p", ⟨"p", [], [], none, none, [], []⟩),
   ("q", ⟨"q", [], [], none, none, [], []⟩)]

/-- The lane table after the branch-point phase on that input. -/
def c10State : LaneMap := (phaseB c10St0 c10Bps).toOption.getD []

/-- The insertion stream on that input. -/
def c10Stream : List Ins := (insStream c10Bps).toOption.getD []

/-- Lane p after the phase. -/
def c10PLane : LaneT := (lookupAssoc c10State "p").getD default

/-- Witness for C10 at the concrete input: lane p's predecessor entry for
peer q equals the first matching insertion of the stream, and p's
predecessor keys are duplicate-free. -/
theorem phaseB_emplace_first_wins_witness :
    lookupAssoc (edgeMapOf c10PLane true) "q"
      = (c10Stream.filterMap (matchVal "p" true "q")).head? ∧
    (c10PLane.predecessors.map Prod.fst).Nodup := by
  have h := phaseB_emplace_first_wins c10Bps c10St0 c10State c10Stream
    (by decide) (by decide) rfl rfl ("p", c10PLane) (by decide)
  exact ⟨h.2 true "q", h.1.1⟩

end MaliputGeopackage
